import Mathlib

/-!
Verification development for the `arboris-novel` backend.

This file gives a shallow embedding, in Lean, of the core components of the
repository's segmented blueprint-generation pipeline and outline reorder
engine:

* `src/backend/app/utils/json_utils.py` — text extractor and recovery parser
  (`remove_think_tags`, `unwrap_markdown_json`, `_extract_balanced_json`,
  `sanitize_json_like_text`, `safe_parse_json`);
* `src/backend/app/services/llm_service.py` — the streaming continuation
  controller (`_stream_and_collect`), the segment generator
  (`_generate_segment_with_retry`, `_parse_segment_response_with_error`,
  `_normalize_segment_data`, `_fix_json_strings`) and the segmented pipeline
  orchestrator (`generate_blueprint_in_segments`);
* `src/backend/app/services/novel_service.py` — `move_chapter_to_volume`.

Python strings are modelled as Lean `String`/`List Char` (Python string
indices are character offsets, as are Lean `List Char` positions).  Python
`json.loads` is modelled by an executable recursive-descent parser that
follows CPython's `json.decoder` (strict mode), including its error messages
and character offsets for the error paths exercised below.  Network effects
(the streaming LLM exchange) are modelled by response oracles: a function
giving the text produced by each round/attempt/batch; everything that happens
to those responses afterwards is translated from the source.  Prompt-string
assembly (which only feeds the oracle) is not modelled.
-/

namespace Arboris

/-! ### Python string primitives -/

/-- The whitespace characters stripped by Python `str.strip()` (ASCII part;
the inputs considered in this file contain no exotic Unicode whitespace). -/
def isPyWs (c : Char) : Bool :=
  c = ' ' || c = '\t' || c = '\n' || c = '\r' || c = '\x0b' || c = '\x0c'

/-- Python `str.strip()` on a character list. -/
def pyStripList (l : List Char) : List Char :=
  ((l.dropWhile isPyWs).reverse.dropWhile isPyWs).reverse

/-- Python `str.strip()`. -/
def pyStrip (s : String) : String := ⟨pyStripList s.data⟩

/-- First index (if any) at which `pat` occurs as a contiguous sublist of `l`
(Python `str.find` for a substring search). -/
def findSub (pat : List Char) : List Char → Option Nat
  | [] => if pat.isEmpty then some 0 else none
  | c :: cs =>
    if pat.isPrefixOf (c :: cs) then some 0
    else (findSub pat cs).map (· + 1)

/-- Python `str.find(ch)`: index of the first occurrence of a character,
as an `Option` instead of `-1`. -/
def findChar (ch : Char) (l : List Char) : Option Nat := findSub [ch] l

/-- Python `str.rfind(ch)`: index of the last occurrence of a character. -/
def rfindChar (ch : Char) (l : List Char) : Option Nat :=
  (findChar ch l.reverse).map (fun i => l.length - 1 - i)

/-- Python `a or b` for strings: `b` if `a` is empty (falsy), else `a`. -/
def pyOrStr (a b : String) : String := if a = "" then b else a

/-! ### JSON values

Python `json.loads` produces dicts/lists/strings/numbers/bools/`None`.
Numeric literals are kept as their source lexeme: no claim below depends on
numeric normalisation.  Objects are association lists in insertion order with
last-wins duplicate handling, like Python dicts. -/

inductive JValue where
  | jnull
  | jbool (b : Bool)
  | jnum (lexeme : String)
  | jstr (s : String)
  | jarr (elems : List JValue)
  | jobj (fields : List (String × JValue))

/-- A Python dict holding JSON-shaped data (insertion-ordered). -/
abbrev JDict := List (String × JValue)

/-- Python `d.get(k)` / `d[k]` lookup. -/
def dictLookup (d : JDict) (k : String) : Option JValue :=
  (d.find? (·.1 == k)).map (·.2)

/-- Python `d[k] = v`: replace in place if the key exists (keeping its
position), else append. -/
def dictSet (d : JDict) (k : String) (v : JValue) : JDict :=
  if (d.find? (·.1 == k)).isSome then
    d.map (fun kv => if kv.1 = k then (kv.1, v) else kv)
  else d ++ [(k, v)]

/-- Python `d.update(new)`. -/
def dictUpdate (d new : JDict) : JDict :=
  new.foldl (fun acc kv => dictSet acc kv.1 kv.2) d

/-- `True` iff the numeric lexeme denotes zero (needed for Python truthiness
of numbers).  `NaN`/`Infinity`/`-Infinity` are non-zero; otherwise the value
is zero iff the significand (everything before any exponent marker) has no
digit `1`-`9`. -/
def numLexemeIsZero (s : String) : Bool :=
  if s = "NaN" || s = "Infinity" || s = "-Infinity" then false
  else (s.data.takeWhile (fun c => !(c = 'e' || c = 'E'))).all
    (fun c => !('1' ≤ c && c ≤ '9'))

/-- Python truthiness of a JSON-shaped value (`if result:`). -/
def pyTruthy : JValue → Bool
  | .jnull => false
  | .jbool b => b
  | .jnum s => !numLexemeIsZero s
  | .jstr s => !(s = "")
  | .jarr l => !l.isEmpty
  | .jobj d => !d.isEmpty

/-! ### `json.loads` (CPython `json.decoder`, strict mode)

Errors are `(msg, pos)` pairs mirroring `JSONDecodeError.msg` and `.pos`
(character offsets).  The scanner below follows CPython's `json` module as
`json.loads` actually executes it (the `_json` C accelerator, checked
against CPython 3.11): value dispatch, strict string scanning that rejects
raw control characters, object/array scanning with the decoder's
whitespace handling, the `NUMBER_RE` grammar and the
`NaN`/`Infinity`/`-Infinity` literals.
Lone-surrogate `\uXXXX` escapes (which Lean's `Char` cannot represent) and
`int(x, 16)`'s tolerance of whitespace/sign inside the four hex digits are
not reproduced; no input below contains a `\u` escape. -/

/-- A `json.JSONDecodeError`, reduced to its message and character offset. -/
abbrev JErr := String × Nat

/-- JSON whitespace, `json.decoder.WHITESPACE_STR` = `' \t\n\r'`. -/
def isJsonWs (c : Char) : Bool :=
  c = ' ' || c = '\t' || c = '\n' || c = '\r'

/-- Skip JSON whitespace, advancing the absolute position. -/
def skipWs : List Char → Nat → List Char × Nat
  | [], p => ([], p)
  | c :: cs, p => if isJsonWs c then skipWs cs (p + 1) else (c :: cs, p)

/-- `json.decoder.BACKSLASH`: the simple escape table. -/
def jsonEscapeTable (c : Char) : Option Char :=
  if c = '"' then some '"'
  else if c = '\\' then some '\\'
  else if c = '/' then some '/'
  else if c = 'b' then some '\x08'
  else if c = 'f' then some '\x0c'
  else if c = 'n' then some '\n'
  else if c = 'r' then some '\r'
  else if c = 't' then some '\t'
  else none

/-- Value of a hex digit. -/
def hexVal (c : Char) : Option Nat :=
  let n := c.toNat
  if 48 ≤ n ∧ n ≤ 57 then some (n - 48)
  else if 97 ≤ n ∧ n ≤ 102 then some (n - 87)
  else if 65 ≤ n ∧ n ≤ 70 then some (n - 55)
  else none

/-- CPython string scanner (strict, as in the C accelerator `_json` used by
`json.loads`): scan a string body after the opening quote.  Arguments:
`begin0` is the absolute index of the opening quote, the list is the text
after the current position `p`, `acc` the reversed content so far.  Returns
the content, the rest and the position after the closing quote. -/
def scanStringAux (begin0 : Nat) :
    List Char → Nat → List Char → Except JErr (List Char × List Char × Nat)
  | [], _, _ => .error ("Unterminated string starting at", begin0)
  | c :: cs, p, acc =>
    if c = '"' then .ok (acc.reverse, cs, p + 1)
    else if c = '\\' then
      match cs with
      | [] => .error ("Unterminated string starting at", begin0)
      | e :: cs' =>
        if e = 'u' then
          match cs' with
          | h1 :: h2 :: h3 :: h4 :: cs'' =>
            match hexVal h1, hexVal h2, hexVal h3, hexVal h4 with
            | some a, some b, some c2, some d =>
              scanStringAux begin0 cs'' (p + 6)
                (Char.ofNat (((a * 16 + b) * 16 + c2) * 16 + d) :: acc)
            | _, _, _, _ => .error ("Invalid \\uXXXX escape", p + 1)
          | _ => .error ("Invalid \\uXXXX escape", p + 1)
        else
          match jsonEscapeTable e with
          | some r => scanStringAux begin0 cs' (p + 2) (r :: acc)
          | none => .error ("Invalid \\escape", p)
    else if c.toNat < 0x20 then
      .error ("Invalid control character at", p)
    else scanStringAux begin0 cs (p + 1) (c :: acc)

/-- Digits matched greedily, with the rest and the new position. -/
def scanDigits : List Char → Nat → List Char × List Char × Nat
  | [], p => ([], [], p)
  | c :: cs, p =>
    if '0' ≤ c && c ≤ '9' then
      let (ds, rest, p') := scanDigits cs (p + 1)
      (c :: ds, rest, p')
    else ([], c :: cs, p)

/-- CPython `json.scanner.NUMBER_RE`:
`(-?(?:0|[1-9]\d*))(\.\d+)?([eE][-+]?\d+)?` matched at the current position.
Returns the lexeme, the rest and the new position on a match. -/
def scanNumber (cs : List Char) (p : Nat) : Option (List Char × List Char × Nat) :=
  let signed : Option (List Char × List Char × Nat) :=
    match cs with
    | '-' :: rest => some (['-'], rest, p + 1)
    | _ => some ([], cs, p)
  match signed with
  | none => none
  | some (sgn, cs1, p1) =>
    match cs1 with
    | [] => none
    | c :: rest =>
      if c = '0' then some (sgn ++ ['0'], rest, p1 + 1)
      else if '1' ≤ c && c ≤ '9' then
        let (ds, rest', p') := scanDigits rest (p1 + 1)
        some (sgn ++ c :: ds, rest', p')
      else none

/-- Optional fraction part `(\.\d+)?`. -/
def scanFrac (cs : List Char) (p : Nat) : List Char × List Char × Nat :=
  match cs with
  | '.' :: rest =>
    match rest with
    | c :: _ =>
      if '0' ≤ c && c ≤ '9' then
        let (ds, rest', p') := scanDigits rest (p + 1)
        ('.' :: ds, rest', p')
      else ([], cs, p)
    | [] => ([], cs, p)
  | _ => ([], cs, p)

/-- Optional exponent part `([eE][-+]?\d+)?`. -/
def scanExp (cs : List Char) (p : Nat) : List Char × List Char × Nat :=
  match cs with
  | e :: rest =>
    if e = 'e' || e = 'E' then
      let (sgn, rest1, p1) :=
        match rest with
        | '+' :: r => (['+'], r, p + 2)
        | '-' :: r => (['-'], r, p + 2)
        | _ => ([], rest, p + 1)
      match rest1 with
      | c :: _ =>
        if '0' ≤ c && c ≤ '9' then
          let (ds, rest', p') := scanDigits rest1 p1
          (e :: sgn ++ ds, rest', p')
        else ([], cs, p)
      | [] => ([], cs, p)
    else ([], cs, p)
  | [] => ([], cs, p)

/-- Full `NUMBER_RE` match at the current position. -/
def matchNumber (cs : List Char) (p : Nat) : Option (String × List Char × Nat) :=
  match scanNumber cs p with
  | none => none
  | some (intPart, cs1, p1) =>
    let (fracPart, cs2, p2) := scanFrac cs1 p1
    let (expPart, cs3, p3) := scanExp cs2 p2
    some (⟨intPart ++ fracPart ++ expPart⟩, cs3, p3)

/-- The task being scanned: a value, the members of an object (after a point
where a key is expected has been established), or the elements of an array.
Used to express CPython's mutually recursive `_scan_once`/`JSONObject`/
`JSONArray` as one fuel-indexed function. -/
inductive ScanTask where
  | value (cs : List Char) (p : Nat)
  | objBody (cs : List Char) (p : Nat) (acc : JDict)
  | objAfterKey (key : String) (cs : List Char) (p : Nat) (acc : JDict)
  | arrBody (cs : List Char) (p : Nat) (acc : List JValue)

/-- Does the list start with the given literal? -/
def startsWithLit (lit : List Char) (cs : List Char) : Bool := lit.isPrefixOf cs

/-- One fuel-indexed scanner covering CPython `_scan_once` (value dispatch),
`JSONObject` and `JSONArray`.  Every recursive call decreases the fuel; the
top-level entry supplies fuel `2 * length + 2`, which majorises the call
count (each call either consumes a character first or is the single
array-element dispatch after `[`). -/
def jscan : Nat → ScanTask → Except JErr (JValue × List Char × Nat)
  | 0, t =>
    -- fuel exhaustion: unreachable from `jloads` (see `jloads`); the
    -- reported error mirrors a failed value scan at the current position
    match t with
    | .value _ p => .error ("Expecting value", p)
    | .objBody _ p _ => .error ("Expecting value", p)
    | .objAfterKey _ _ p _ => .error ("Expecting value", p)
    | .arrBody _ p _ => .error ("Expecting value", p)
  | fuel + 1, .value cs p =>
    match cs with
    | [] => .error ("Expecting value", p)
    | c :: rest =>
      if c = '"' then
        match scanStringAux p rest (p + 1) [] with
        | .ok (content, rest', p') => .ok (.jstr ⟨content⟩, rest', p')
        | .error e => .error e
      else if c = '\x7b' then
        -- JSONObject: peek for `}` / `"` with the decoder's whitespace step
        let (cs1, p1) :=
          match rest with
          | d :: _ => if d ≠ '"' && isJsonWs d then skipWs rest (p + 1) else (rest, p + 1)
          | [] => (rest, p + 1)
        match cs1 with
        | '\x7d' :: rest2 => .ok (.jobj [], rest2, p1 + 1)
        | '"' :: rest2 => jscan fuel (.objBody ('"' :: rest2) p1 [])
        | _ => .error ("Expecting property name enclosed in double quotes", p1)
      else if c = '[' then
        -- JSONArray: peek for `]`
        let (cs1, p1) :=
          match rest with
          | d :: _ => if isJsonWs d then skipWs rest (p + 1) else (rest, p + 1)
          | [] => (rest, p + 1)
        match cs1 with
        | ']' :: rest2 => .ok (.jarr [], rest2, p1 + 1)
        | _ => jscan fuel (.arrBody cs1 p1 [])
      else if startsWithLit "null".data cs then .ok (.jnull, cs.drop 4, p + 4)
      else if startsWithLit "true".data cs then .ok (.jbool true, cs.drop 4, p + 4)
      else if startsWithLit "false".data cs then .ok (.jbool false, cs.drop 5, p + 5)
      else
        match matchNumber cs p with
        | some (lex, rest', p') => .ok (.jnum lex, rest', p')
        | none =>
          if startsWithLit "NaN".data cs then .ok (.jnum "NaN", cs.drop 3, p + 3)
          else if startsWithLit "Infinity".data cs then .ok (.jnum "Infinity", cs.drop 8, p + 8)
          else if startsWithLit "-Infinity".data cs then .ok (.jnum "-Infinity", cs.drop 9, p + 9)
          else .error ("Expecting value", p)
  | fuel + 1, .objBody cs p acc =>
    -- `cs` starts at a `"` opening a property name
    match cs with
    | '"' :: rest =>
      match scanStringAux p rest (p + 1) [] with
      | .error e => .error e
      | .ok (key, rest1, p1) => jscan fuel (.objAfterKey ⟨key⟩ rest1 p1 acc)
    | _ => .error ("Expecting property name enclosed in double quotes", p)
  | fuel + 1, .objAfterKey key cs p acc =>
    -- expect `:`, then a value, then `,`/`}`
    let (cs1, p1) :=
      match cs with
      | ':' :: _ => (cs, p)
      | _ => skipWs cs p
    match cs1 with
    | ':' :: rest =>
      let (cs2, p2) := skipWs rest (p1 + 1)
      match jscan fuel (.value cs2 p2) with
      | .error e => .error e
      | .ok (v, rest2, p3) =>
        let acc' := dictSet acc key v
        let (cs3, p4) := skipWs rest2 p3
        match cs3 with
        | '\x7d' :: rest3 => .ok (.jobj acc', rest3, p4 + 1)
        | ',' :: rest3 =>
          let (cs4, p5) := skipWs rest3 (p4 + 1)
          match cs4 with
          | '"' :: _ => jscan fuel (.objBody cs4 p5 acc')
          | _ => .error ("Expecting property name enclosed in double quotes", p5)
        | _ => .error ("Expecting ',' delimiter", p4)
    | _ => .error ("Expecting ':' delimiter", p1)
  | fuel + 1, .arrBody cs p acc =>
    match jscan fuel (.value cs p) with
    | .error e => .error e
    | .ok (v, rest, p1) =>
      let acc' := acc ++ [v]
      let (cs1, p2) := skipWs rest p1
      match cs1 with
      | ']' :: rest1 => .ok (.jarr acc', rest1, p2 + 1)
      | ',' :: rest1 =>
        let (cs2, p3) := skipWs rest1 (p2 + 1)
        jscan fuel (.arrBody cs2 p3 acc')
      | _ => .error ("Expecting ',' delimiter", p2)

/-- CPython `json.loads` on a character list: skip leading whitespace, scan
one value, skip trailing whitespace, and require the end of input
(otherwise `Extra data`). -/
def jloadsList (cs : List Char) : Except JErr JValue :=
  let (cs1, p1) := skipWs cs 0
  match jscan (2 * cs.length + 2) (.value cs1 p1) with
  | .error e => .error e
  | .ok (v, rest, p2) =>
    let (rest1, p3) := skipWs rest p2
    if rest1.isEmpty then .ok v else .error ("Extra data", p3)

/-- `json.loads` on a string. -/
def jloads (s : String) : Except JErr JValue := jloadsList s.data

/-- `json.loads` wrapped in `try/except JSONDecodeError` (`None` on failure). -/
def jloadsOpt (s : String) : Option JValue := (jloads s).toOption

/-! ### `app/utils/json_utils.py` -/

/-- Auxiliary for `remove_think_tags`: repeatedly drop the leftmost
`<think>...</think>` region (non-greedy, `re.DOTALL`), like
`re.sub(r"<think>.*?</think>", "", raw_text, flags=re.DOTALL)`.
Fuel-indexed (each found region removes at least 15 characters); the entry
point passes `length + 1`. -/
def removeThinkAux : Nat → List Char → List Char
  | 0, cs => cs
  | fuel + 1, cs =>
    match findSub "<think>".data cs with
    | none => cs
    | some i =>
      let afterOpen := cs.drop (i + 7)
      match findSub "</think>".data afterOpen with
      | none => cs
      | some j => cs.take i ++ removeThinkAux fuel (afterOpen.drop (j + 8))

/-- `json_utils.remove_think_tags`: strip `<think>...</think>` regions, then
`strip()`; empty (falsy) input is returned unchanged. -/
def remove_think_tags (raw_text : String) : String :=
  if raw_text = "" then raw_text
  else pyStrip ⟨removeThinkAux (raw_text.data.length + 1) raw_text.data⟩

/-- Case-insensitive check that the list starts with `json` (the
`(?:json)?` part of the fence pattern, `re.IGNORECASE`). -/
def startsWithJsonTag : List Char → Bool
  | a :: b :: c :: d :: _ =>
    a.toLower = 'j' && b.toLower = 's' && c.toLower = 'o' && d.toLower = 'n'
  | _ => false

/-- Fence search for `re.search(r"```(?:json)?\s*(.*?)\s*```", ...,
re.DOTALL | re.IGNORECASE)`: find the leftmost backtick fence that also has
a closing fence, and return the (stripped) interior.  The leading
`(?:json)?` greedily consumes a `json` tag right after the opening fence;
the lazy group together with the surrounding `\s*` yields the text up to
the next closing fence, whose surrounding whitespace the caller strips
anyway (the source applies `.strip()` to `group(1)`). -/
def findFenceFrom : Nat → List Char → Option (List Char)
  | 0, _ => none
  | fuel + 1, cs =>
    match findSub "```".data cs with
    | none => none
    | some i =>
      let afterOpen := cs.drop (i + 3)
      let afterTag := if startsWithJsonTag afterOpen then afterOpen.drop 4 else afterOpen
      match findSub "```".data afterTag with
      | some j => some (pyStripList (afterTag.take j))
      | none => findFenceFrom fuel (cs.drop (i + 1))

/-- State-machine scan of `_extract_balanced_json`'s main loop: track depth
of the chosen bracket pair while honouring string boundaries and
backslash escapes; at every depth-zero closing bracket, test the candidate
span with `json.loads`, and on failure keep scanning (the start index never
moves).  `fromStart` is the text from the first bracket on; `cnt` counts the
characters already consumed from it. -/
def balScanAux (fromStart : List Char) (sChar eChar : Char) :
    List Char → Nat → Int → Bool → Bool → Option (List Char)
  | [], _, _, _, _ => none
  | c :: cs, cnt, depth, instr, esc =>
    if esc then balScanAux fromStart sChar eChar cs (cnt + 1) depth instr false
    else if c = '\\' then balScanAux fromStart sChar eChar cs (cnt + 1) depth instr true
    else if c = '"' then balScanAux fromStart sChar eChar cs (cnt + 1) depth (!instr) esc
    else if instr then balScanAux fromStart sChar eChar cs (cnt + 1) depth instr esc
    else if c = sChar then balScanAux fromStart sChar eChar cs (cnt + 1) (depth + 1) instr esc
    else if c = eChar then
      let depth' := depth - 1
      if depth' = 0 then
        let candidate := fromStart.take (cnt + 1)
        if (jloadsList candidate).isOk then some candidate
        else balScanAux fromStart sChar eChar cs (cnt + 1) depth' instr esc
      else balScanAux fromStart sChar eChar cs (cnt + 1) depth' instr esc
    else balScanAux fromStart sChar eChar cs (cnt + 1) depth instr esc

/-- `json_utils._extract_balanced_json` (named without the leading
underscore): balanced-bracket extraction with `json.loads` validation, and
the naive first-opening-bracket to last-closing-bracket fallback. -/
def extract_balanced_json (text : List Char) : Option (List Char) :=
  let startBrace := findChar '\x7b' text
  let startBracket := findChar '[' text
  let start? :=
    match startBrace, startBracket with
    | none, none => none
    | some i, none => some i
    | none, some j => some j
    | some i, some j => some (min i j)
  match start? with
  | none => none
  | some start_idx =>
    let fromStart := text.drop start_idx
    let sChar := if text.get? start_idx = some '\x7b' then '\x7b' else '['
    let eChar := if sChar = '\x7b' then '\x7d' else ']'
    match balScanAux fromStart sChar eChar fromStart 0 0 false false with
    | some candidate => some candidate
    | none =>
      -- fallback: naive span from the first `{`/`[` to the last `}`/`]`
      let closingBrace := rfindChar '\x7d' text
      let closingBracket := rfindChar ']' text
      let end? :=
        match closingBrace, closingBracket with
        | none, none => none
        | some i, none => some i
        | none, some j => some j
        | some i, some j => some (max i j)
      match end? with
      | none => none
      | some end_idx =>
        if start_idx < end_idx then
          some (pyStripList ((text.take (end_idx + 1)).drop start_idx))
        else none

/-- `json_utils.unwrap_markdown_json`: fenced block first, then balanced
extraction, then the trimmed input itself. -/
def unwrap_markdown_json (raw_text : String) : String :=
  if raw_text = "" then raw_text
  else
    let trimmed := pyStripList raw_text.data
    match findFenceFrom (trimmed.length + 1) trimmed with
    | some candidate =>
      if candidate.isEmpty then
        match extract_balanced_json trimmed with
        | some extracted => ⟨extracted⟩
        | none => ⟨trimmed⟩
      else ⟨candidate⟩
    | none =>
      match extract_balanced_json trimmed with
      | some extracted => ⟨extracted⟩
      | none => ⟨trimmed⟩

/-- Peek used by the sanitizer's quote disambiguation: the next characters
after the quote with `" \t\r\n"` skipped. -/
def peekPastWs (cs : List Char) : List Char :=
  cs.dropWhile (fun x => x = ' ' || x = '\t' || x = '\r' || x = '\n')

/-- The character-level loop of `json_utils.sanitize_json_like_text`.
State: `instr` (inside a string literal), `esc` (previous character was an
unconsumed backslash). -/
def sanAux : List Char → Bool → Bool → List Char
  | [], _, _ => []
  | c :: cs, instr, esc =>
    if instr then
      if esc then c :: sanAux cs instr false
      else if c = '\\' then c :: sanAux cs instr true
      else if c = '"' then
        match peekPastWs cs with
        | [] => c :: sanAux cs false esc
        | x :: _ =>
          if x = '\x7d' || x = ']' then c :: sanAux cs false esc
          else if x = ',' || x = ':' then c :: sanAux cs false esc
          else '\\' :: '"' :: sanAux cs instr esc
      else if c = '\n' then '\\' :: 'n' :: sanAux cs instr esc
      else if c = '\r' then '\\' :: 'r' :: sanAux cs instr esc
      else if c = '\t' then '\\' :: 't' :: sanAux cs instr esc
      else c :: sanAux cs instr esc
    else
      if c = '"' then c :: sanAux cs true esc
      else c :: sanAux cs false esc

/-- `json_utils.sanitize_json_like_text`. -/
def sanitize_json_like_text (raw_text : String) : String :=
  if raw_text = "" then raw_text
  else ⟨sanAux raw_text.data false false⟩

/-- `json_utils.safe_parse_json`: strip think tags, extract, parse directly,
then parse the sanitized text; `None` when both parses fail. -/
def safe_parse_json (raw_text : String) : Option JValue :=
  if raw_text = "" then none
  else
    let cleaned := remove_think_tags raw_text
    let extracted := unwrap_markdown_json cleaned
    match jloads extracted with
    | .ok v => some v
    | .error _ =>
      match jloads (sanitize_json_like_text extracted) with
      | .ok v => some v
      | .error _ => none

/-! ### `app/services/llm_service.py` — segment parsing -/

/-- The character-level loop of `LLMService._fix_json_strings` (reached via
`_try_fix_json`, whose `try/except` wrapper never fires since the scan is
total): escape raw newline/CR/tab inside string literals, toggling the
string state on every unescaped quote (no quote-lookahead here). -/
def fixJsonStringsAux : List Char → Bool → Bool → List Char
  | [], _, _ => []
  | c :: cs, instr, esc =>
    if esc then c :: fixJsonStringsAux cs instr false
    else if c = '\\' then c :: fixJsonStringsAux cs instr true
    else if c = '"' then c :: fixJsonStringsAux cs (!instr) esc
    else if instr then
      if c = '\n' then '\\' :: 'n' :: fixJsonStringsAux cs instr esc
      else if c = '\r' then '\\' :: 'r' :: fixJsonStringsAux cs instr esc
      else if c = '\t' then '\\' :: 't' :: fixJsonStringsAux cs instr esc
      else c :: fixJsonStringsAux cs instr esc
    else c :: fixJsonStringsAux cs instr esc

/-- `LLMService._try_fix_json` (which delegates to `_fix_json_strings`). -/
def try_fix_json (text : String) : String :=
  ⟨fixJsonStringsAux text.data false false⟩

/-- `LLMService._normalize_segment_data`'s `field_map`. -/
def segmentFieldMap (segment_name : String) : String :=
  if segment_name = "characters" then "characters"
  else if segment_name = "relationships" then "relationships"
  else if segment_name = "chapter_outline" then "chapters"
  else segment_name

/-- `LLMService._normalize_segment_data`: a dict stays as is; a list is
wrapped under the mapped field name; anything else degrades to `{}`. -/
def normalize_segment_data (data : JValue) (segment_name : String) : JDict :=
  match data with
  | .jobj d => d
  | .jarr l => [(segmentFieldMap segment_name, .jarr l)]
  | _ => []

/-- `LLMService._parse_segment_response_with_error`: strip think tags and
markdown, then tier 1 (direct `json.loads`), tier 2 (`safe_parse_json` on
the *original* response, accepted only when truthy), tier 3
(`_try_fix_json` then `json.loads`).  On total failure, the reported
message/offset are the ones from tier 1's `JSONDecodeError`. -/
def parse_segment_response_with_error (response : String) (segment_name : String) :
    Option JDict × Option String × Option Nat :=
  let cleaned := remove_think_tags response
  let normalized := unwrap_markdown_json cleaned
  match jloads normalized with
  | .ok data => (some (normalize_segment_data data segment_name), none, none)
  | .error (first_msg, first_pos) =>
    match safe_parse_json response with
    | some result =>
      if pyTruthy result then
        (some (normalize_segment_data result segment_name), none, none)
      else
        match jloads (try_fix_json normalized) with
        | .ok data => (some (normalize_segment_data data segment_name), none, none)
        | .error _ => (none, some first_msg, some first_pos)
    | none =>
      match jloads (try_fix_json normalized) with
      | .ok data => (some (normalize_segment_data data segment_name), none, none)
      | .error _ => (none, some first_msg, some first_pos)

/-- The `SegmentParseError` dataclass. -/
structure SegmentParseError where
  segment_name : String
  segment_index : Nat
  raw_response : String
  error_message : String
  error_position : Option Nat
deriving DecidableEq, Repr

/-- The retry loop of `LLMService._generate_segment_with_retry`, over a
response oracle giving each attempt's collected LLM text (attempts are
numbered from 0; prompt construction, which only feeds the oracle, is not
modelled, and the streaming layer's hard failures — which the source
re-raises without retrying — are outside the oracle).  `remaining` is the
number of attempts left (`max_retries + 1` at entry); `lastMsg`, `lastPos`,
`lastResp` accumulate exactly the source's `last_error_msg`,
`last_error_pos` and `last_response`. -/
def genSegGo (segment_name : String) (segment_index : Nat) (responses : Nat → String) :
    Nat → Nat → String → Option Nat → String → Except SegmentParseError JDict
  | 0, _, lastMsg, lastPos, lastResp =>
    .error ⟨segment_name, segment_index, lastResp, lastMsg, lastPos⟩
  | remaining + 1, attempt, _, _, _ =>
    let response := responses attempt
    let (result, error_msg, error_pos) :=
      parse_segment_response_with_error response segment_name
    match result with
    | some d =>
      if d.isEmpty then
        -- `if result:` is false for an empty dict: fall through to the
        -- failure bookkeeping (`error_msg or "解析结果为空"`)
        genSegGo segment_name segment_index responses remaining (attempt + 1)
          (pyOrStr (error_msg.getD "") "解析结果为空") error_pos response
      else .ok d
    | none =>
      genSegGo segment_name segment_index responses remaining (attempt + 1)
        (pyOrStr (error_msg.getD "") "解析结果为空") error_pos response

/-- `LLMService._generate_segment_with_retry` over a response oracle. -/
def generate_segment_with_retry (segment_name : String) (segment_index : Nat)
    (responses : Nat → String) (max_retries : Nat) : Except SegmentParseError JDict :=
  genSegGo segment_name segment_index responses (max_retries + 1) 0 "" none ""

/-! ### `app/services/llm_service.py` — `_stream_and_collect` -/

/-- A chat message (role/content pair). -/
structure ChatMsg where
  role : String
  content : String
deriving DecidableEq, Repr

/-- What the backend produces in one streaming round: the concatenated
content fragments and the final `finish_reason`. -/
structure RoundResult where
  text : String
  finish : Option String
deriving DecidableEq, Repr

/-- The continuation instruction appended after the previous output
(source lines 324–330): the explicit JSON continuation prompt for
`json_object` responses, the plain `"请继续"` otherwise. -/
def continueInstruction (response_format : Option String) : String :=
  if response_format = some "json_object" then
    "请从你上次输出中断的地方继续，直接输出剩余的 JSON 内容，不要重复已输出的部分，不要添加任何解释。"
  else "请继续"

/-- The `while True` loop of `LLMService._stream_and_collect`, over a round
oracle giving each round's `RoundResult` (rounds are numbered from 0).
Returns the list of message lists sent (one per round, in order) and the
final outcome: `none` models the `HTTPException` raised when the
accumulated response is empty, `some text` the returned text.  `fuel` is
`max_continuations + 1 - count` at every call, which bounds the remaining
rounds; the fuel-exhaustion branch is unreachable from the entry point. -/
def streamGo (oracle : Nat → RoundResult) (messages : List ChatMsg)
    (response_format : Option String) (auto_continue : Bool) (max_continuations : Nat) :
    Nat → Nat → String → List ChatMsg → Nat → List (List ChatMsg) × Option String
  | 0, _, full, current, _ =>
    ([current], if full = "" then none else some full)
  | fuel + 1, count, full, current, round =>
    let out := oracle round
    let full' := full ++ out.text
    if out.finish == some "length" && auto_continue && decide (count < max_continuations) then
      let current' := messages ++
        [⟨"assistant", out.text⟩, ⟨"user", continueInstruction response_format⟩]
      let r0 :=
        streamGo oracle messages response_format auto_continue max_continuations
          fuel (count + 1) full' current' (round + 1)
      (current :: r0.1, r0.2)
    else
      ([current], if full' = "" then none else some full')

/-- `LLMService._stream_and_collect` over a round oracle. -/
def stream_and_collect (oracle : Nat → RoundResult) (messages : List ChatMsg)
    (response_format : Option String) (auto_continue : Bool) (max_continuations : Nat) :
    List (List ChatMsg) × Option String :=
  streamGo oracle messages response_format auto_continue max_continuations
    (max_continuations + 1) 0 "" messages 0

/-! ### `app/services/llm_service.py` — `generate_blueprint_in_segments`

The orchestrator is modelled over two outcome oracles standing for the
already-modelled `_generate_segment_with_retry`: one for the four plain
segments (indexed 1–4) and one for the chapter-outline batches (indexed by
batch number and chapter window).  Prompt/context strings, which only feed
those calls, are not modelled; the `trace` output records which segment
generations were requested and in which order. -/

/-- The `generation_context` dict (its constant `system_prompt` entry, which
round-trips the caller's prompt, is not modelled). -/
structure GenContext where
  total_chapters : Nat
  chapters_per_batch : Nat
  current_batch : Option Nat
deriving DecidableEq, Repr

/-- One requested generation: a plain segment, or one outline batch with its
chapter window. -/
inductive SegReq where
  | seg (index : Nat)
  | batch (batch_num start_c end_c : Nat)
deriving DecidableEq, Repr

/-- The segment index a request belongs to (outline batches belong to
segment 5). -/
def segReqIndex : SegReq → Nat
  | .seg i => i
  | .batch _ _ _ => 5

/-- `BlueprintGenerationResult` (the dataclass).  The source field
`partial_blueprint` is called `blueprint_so_far` here. -/
structure BlueprintGenerationResult where
  success : Bool
  blueprint : Option JDict
  error : Option SegmentParseError
  blueprint_so_far : Option JDict
  generation_context : Option GenContext

/-- Python iteration over a JSON-shaped value, for `list.extend`: lists give
their elements, dicts their keys, strings their characters.  Non-iterables
would raise `TypeError` in Python; they are unreachable under the oracles
used below and degrade to `[]` here. -/
def jvalueElems : JValue → List JValue
  | .jarr l => l
  | .jobj d => d.map (fun kv => .jstr kv.1)
  | .jstr s => s.data.map (fun c => .jstr ⟨[c]⟩)
  | _ => []

/-- `outline_data.get("chapters", outline_data.get("chapter_outline", []))`
(source line 998). -/
def chaptersFromData (d : JDict) : JValue :=
  match dictLookup d "chapters" with
  | some v => v
  | none =>
    match dictLookup d "chapter_outline" with
    | some v => v
    | none => .jarr []

/-- `blueprint.get("chapter_outline", [])` as the working chapter list. -/
def jarrElems : Option JValue → List JValue
  | some (.jarr l) => l
  | some v => jvalueElems v
  | none => []

/-- The `while start_chapter <= total_chapters` batch loop of segment 5
(source lines 943–1013).  Arguments after the oracle and configuration:
fuel (strictly more than the remaining iterations; the entry point passes
`total + 1`), `batch_num`, `start_chapter`, and the accumulated
`all_chapters`.  On a batch failure the loop stops with the error, the
chapters accumulated so far, and the generation context carrying
`current_batch`. -/
def chapterOutlineGo (oracle : Nat → Nat → Nat → Except SegmentParseError JDict)
    (total bpb : Nat) :
    Nat → Nat → Nat → List JValue →
    List SegReq × Except (SegmentParseError × List JValue × GenContext) (List JValue)
  | 0, _, _, all => ([], .ok all)
  | fuel + 1, bnum, start, all =>
    if total < start then ([], .ok all)
    else
      let bnum' := bnum + 1
      let endc := min (start + bpb - 1) total
      match oracle bnum' start endc with
      | .error e =>
        ([.batch bnum' start endc], .error (e, all, ⟨total, bpb, some bnum'⟩))
      | .ok d =>
        let bc := chaptersFromData d
        let all' := if pyTruthy bc then all ++ jvalueElems bc else all
        let r0 := chapterOutlineGo oracle total bpb fuel bnum' (endc + 1) all'
        (.batch bnum' start endc :: r0.1, r0.2)

/-- Segment 5 of `generate_blueprint_in_segments`: initial `batch_num` is
`len(all_chapters) // chapters_per_batch if all_chapters else 0` and the
first requested chapter is `len(all_chapters) + 1` (source lines 931–942),
so a resumed run continues from the accumulated chapter count. -/
def chapter_outline_segment (oracle : Nat → Nat → Nat → Except SegmentParseError JDict)
    (total bpb : Nat) (all0 : List JValue) :
    List SegReq × Except (SegmentParseError × List JValue × GenContext) (List JValue) :=
  let bnum0 := if all0.isEmpty then 0 else all0.length / bpb
  chapterOutlineGo oracle total bpb (total + 1) bnum0 (all0.length + 1) all0

/-- One plain segment step of the orchestrator: executed only when
`start_from_segment ≤ i`; a failure stops the pipeline with the blueprint
accumulated so far and a context without `current_batch` (source lines
797–922). -/
def stepSeg (k i : Nat) (oracle : Nat → Except SegmentParseError JDict)
    (total bpb : Nat) (st : JDict × List SegReq) :
    Except (List SegReq × BlueprintGenerationResult) (JDict × List SegReq) :=
  if k ≤ i then
    match oracle i with
    | .error e =>
      .error (st.2 ++ [.seg i],
        ⟨false, none, some e, some st.1, some ⟨total, bpb, none⟩⟩)
    | .ok d => .ok (dictUpdate st.1 d, st.2 ++ [.seg i])
  else .ok st

/-- Early-exit plumbing for the orchestrator: a failed step's payload is
returned as is, a successful step's state flows on. -/
def contStep (f : JDict × List SegReq → List SegReq × BlueprintGenerationResult)
    (r : Except (List SegReq × BlueprintGenerationResult) (JDict × List SegReq)) :
    List SegReq × BlueprintGenerationResult :=
  match r with
  | .error x => x
  | .ok st => f st

/-- Segment 5 of the orchestrator (source lines 924–1024): when reached,
run the batched chapter outline from the accumulated `chapter_outline`
value and store the extended list back; a batch failure carries the
partially extended blueprint and the batch context. -/
def seg5Run (batchOracle : Nat → Nat → Nat → Except SegmentParseError JDict)
    (total bpb k : Nat) (st : JDict × List SegReq) :
    List SegReq × BlueprintGenerationResult :=
  if k ≤ 5 then
    let all0 := jarrElems (dictLookup st.1 "chapter_outline")
    let r5 := chapter_outline_segment batchOracle total bpb all0
    match r5.2 with
    | .error (e, chs, ctx) =>
      (st.2 ++ r5.1,
        ⟨false, none, some e, some (dictSet st.1 "chapter_outline" (.jarr chs)),
          some ctx⟩)
    | .ok chs =>
      (st.2 ++ r5.1,
        ⟨true, some (dictSet st.1 "chapter_outline" (.jarr chs)), none, none, none⟩)
  else (st.2, ⟨true, some st.1, none, none, none⟩)

/-- `LLMService.generate_blueprint_in_segments` over segment/batch outcome
oracles: run segments 1–4 in order (merging each result with
`blueprint.update`), then the batched chapter outline; resuming skips all
segments with index `< start_from_segment` and starts from the supplied
partial blueprint. -/
def generate_blueprint_in_segments (segOracle : Nat → Except SegmentParseError JDict)
    (batchOracle : Nat → Nat → Nat → Except SegmentParseError JDict)
    (total bpb start_from_segment : Nat) (blueprint0 : JDict) :
    List SegReq × BlueprintGenerationResult :=
  contStep (fun st1 =>
    contStep (fun st2 =>
      contStep (fun st3 =>
        contStep (fun st4 => seg5Run batchOracle total bpb start_from_segment st4)
          (stepSeg start_from_segment 4 segOracle total bpb st3))
        (stepSeg start_from_segment 3 segOracle total bpb st2))
      (stepSeg start_from_segment 2 segOracle total bpb st1))
    (stepSeg start_from_segment 1 segOracle total bpb (blueprint0, []))

/-- The blueprint dict carried by a `BlueprintGenerationResult` (the final
blueprint on success, the partial one on failure). -/
def resultBlueprint (r : BlueprintGenerationResult) : JDict :=
  if r.success then r.blueprint.getD [] else r.blueprint_so_far.getD []

/-! ### `app/services/novel_service.py` — `move_chapter_to_volume`

State is the `novel_volumes` and `chapter_outlines` tables (the rows the
operation reads and writes).  The mirrored `chapters`-table sync at the end
of the source function touches a different table and is outside this state.
SQL `ORDER BY chapter_number` is modelled by an insertion sort; within one
volume chapter numbers are unique under the stored invariant, so any
correct sort produces the same list. -/

/-- A `NovelVolume` row (the fields the operation reads). -/
structure VolumeRec where
  id : Nat
  project_id : Nat
deriving DecidableEq, Repr

/-- A `ChapterOutline` row (the fields the operation reads and writes). -/
structure OutlineRec where
  id : Nat
  project_id : Nat
  volume_id : Nat
  chapter_number : Int
deriving DecidableEq, Repr

/-- The slice of database state touched by the operation. -/
structure NovelState where
  volumes : List VolumeRec
  chapters : List OutlineRec
deriving DecidableEq, Repr

/-- The failure modes of `move_chapter_to_volume`. -/
inductive MoveError where
  | notFound      -- HTTP 404 `Chapter或Volume不存在`
  | crossProject  -- HTTP 400 `不能跨项目移动`
  | chapterMissing  -- `ValueError("找不到当前章节")`
deriving DecidableEq, Repr

/-- `SELECT ... WHERE volume_id = vid ORDER BY chapter_number`. -/
def sortByNum (l : List OutlineRec) : List OutlineRec :=
  List.insertionSort (fun a b => a.chapter_number ≤ b.chapter_number) l

/-- Find-then-`pop` of the chapter with the given id (source lines
899–904 / 939–943: `next(...)` over the ordered list, then `list.pop`). -/
def popById (cid : Nat) : List OutlineRec → Option (OutlineRec × List OutlineRec)
  | [] => none
  | c :: cs =>
    if c.id = cid then some (c, cs)
    else (popById cid cs).map (fun mr => (mr.1, c :: mr.2))

/-- Python `list.insert(idx, x)`: negative indices count from the end and
everything is clamped into range. -/
def pyInsert (idx : Int) (x : α) (l : List α) : List α :=
  let n : Int := l.length
  let i : Int := if idx < 0 then max 0 (n + idx) else min idx n
  l.insertIdx i.toNat x

/-- `for idx, chapter in enumerate(lst, start=1): chapter.chapter_number = idx`. -/
def renumFrom (k : Int) : List OutlineRec → List OutlineRec
  | [] => []
  | c :: cs => { c with chapter_number := k } :: renumFrom (k + 1) cs

/-- Same, also reassigning `volume_id` (source lines 954–956). -/
def renumAssignFrom (vid : Nat) (k : Int) : List OutlineRec → List OutlineRec
  | [] => []
  | c :: cs =>
    { c with volume_id := vid, chapter_number := k } :: renumAssignFrom vid (k + 1) cs

/-- The constant offset applied before renumbering (source line 879). -/
def moveOffset : Int := 10000

/-- `NovelService.move_chapter_to_volume` on the modelled state. -/
def move_chapter_to_volume (st : NovelState) (chapter_outline_id target_volume_id : Nat)
    (new_chapter_number : Int) : Except MoveError NovelState :=
  match st.chapters.find? (fun c => c.id == chapter_outline_id),
        st.volumes.find? (fun v => v.id == target_volume_id) with
  | some outline, some target_volume =>
    if outline.project_id ≠ target_volume.project_id then .error .crossProject
    else if outline.volume_id = target_volume_id ∧
        outline.chapter_number = new_chapter_number then .ok st
    else if outline.volume_id = target_volume_id then
      -- same-volume move
      let offsetChs := st.chapters.map (fun c =>
        if c.volume_id == target_volume_id then
          { c with chapter_number := c.chapter_number + moveOffset }
        else c)
      let all_chapters := sortByNum (offsetChs.filter (·.volume_id == target_volume_id))
      match popById chapter_outline_id all_chapters with
      | none => .error .chapterMissing
      | some (moving, rest) =>
        let inserted := pyInsert (new_chapter_number - 1) moving rest
        let untouched := offsetChs.filter (fun c => !(c.volume_id == target_volume_id))
        let newChapters := untouched ++ renumFrom 1 inserted
        .ok { st with chapters := newChapters }
    else
      -- cross-volume move
      let old_volume_id := outline.volume_id
      let offsetChs := st.chapters.map (fun c =>
        if c.volume_id == old_volume_id || c.volume_id == target_volume_id then
          { c with chapter_number := c.chapter_number + moveOffset }
        else c)
      let old_volume_chapters := sortByNum (offsetChs.filter (·.volume_id == old_volume_id))
      let target_volume_chapters :=
        sortByNum (offsetChs.filter (·.volume_id == target_volume_id))
      match popById chapter_outline_id old_volume_chapters with
      | none => .error .chapterMissing
      | some (moving, oldRest) =>
        let inserted := pyInsert (new_chapter_number - 1) moving target_volume_chapters
        let untouched := offsetChs.filter (fun c =>
          !(c.volume_id == old_volume_id || c.volume_id == target_volume_id))
        let newChapters :=
          untouched ++ renumFrom 1 oldRest ++ renumAssignFrom target_volume_id 1 inserted
        .ok { st with chapters := newChapters }
  | _, _ => .error .notFound

/-- The rows of one volume, in stored order. -/
def chaptersOf (st : NovelState) (vid : Nat) : List OutlineRec :=
  st.chapters.filter (·.volume_id == vid)

/-- The chapter numbers of one volume, sorted (the externally visible
sequence). -/
def numsOf (st : NovelState) (vid : Nat) : List Int :=
  (sortByNum (chaptersOf st vid)).map (·.chapter_number)

/-- The chapter ids of one volume in sequence order. -/
def idsOf (st : NovelState) (vid : Nat) : List Nat :=
  (sortByNum (chaptersOf st vid)).map (·.id)

/-- `[1, 2, …, n]` as integers (the dense numbering of the invariant). -/
def intRange1 (n : Nat) : List Int := (List.range n).map (fun i : Nat => (i : Int) + 1)

/-! ### Reference definitions and concrete scenarios used by the claims -/

/-- Modelled from the spec: the chunked-outline batching schedule — "while
the accumulated outline item count is below the target total, request one
more batch sized at the configured batch size (clamped to the remaining
item count)".  Fuel-indexed like the loop it describes. -/
def batchWindowsGo (total bpb : Nat) : Nat → Nat → List (Nat × Nat)
  | 0, _ => []
  | fuel + 1, start =>
    if total < start then []
    else (start, min (start + bpb - 1) total) ::
      batchWindowsGo total bpb fuel (min (start + bpb - 1) total + 1)

/-- Modelled from the spec: batch windows starting at chapter `start`. -/
def batchWindows (start total bpb : Nat) : List (Nat × Nat) :=
  batchWindowsGo total bpb (total + 1) start

/-- The trace expected for a run of consecutive successful batches numbered
from `b0 + 1`. -/
def expectedBatchTrace (b0 : Nat) (ws : List (Nat × Nat)) : List SegReq :=
  (List.enumFrom (b0 + 1) ws).map (fun p => .batch p.1 p.2.1 p.2.2)

/-- Distinct placeholder chapter items for the chapters `s..e`. -/
def mkChs (s e : Nat) : List JValue :=
  (List.range' s (e + 1 - s)).map (fun i => .jstr (toString i))

/-- A batch oracle that answers every window with exactly the requested
chapters. -/
def fullBatchOracle : Nat → Nat → Nat → Except SegmentParseError JDict :=
  fun _ s e => .ok [("chapters", .jarr (mkChs s e))]

/-- A concrete parse failure used by the failing-batch scenario. -/
def sampleBatchError : SegmentParseError :=
  ⟨"chapter_outline_batch_2", 5, "not json", "Expecting value", some 0⟩

/-- A batch oracle that fails at batch 2 and otherwise answers in full. -/
def failAt2Oracle : Nat → Nat → Nat → Except SegmentParseError JDict :=
  fun b s e => if b = 2 then .error sampleBatchError else fullBatchOracle b s e

/-- Whether one retry attempt with this response fails (`if result:` false:
no parse result, or a result that normalises to an empty — falsy — dict). -/
def attemptFails (response segment_name : String) : Bool :=
  match (parse_segment_response_with_error response segment_name).1 with
  | some d => d.isEmpty
  | none => true

/-- The `last_error_msg` recorded for a failing attempt
(`error_msg or "解析结果为空"`). -/
def recordedErrMsg (response segment_name : String) : String :=
  pyOrStr ((parse_segment_response_with_error response segment_name).2.1.getD "")
    "解析结果为空"

/-- The `last_error_pos` recorded for a failing attempt. -/
def recordedErrPos (response segment_name : String) : Option Nat :=
  (parse_segment_response_with_error response segment_name).2.2

/-- Scripted responses for the retry counterexample: the first attempt's
text fails parsing at offset 0, every later attempt's at offset 1. -/
def c2Responses : Nat → String := fun i => if i = 0 then "x" else "[x]"

/-- A text whose first balanced-bracket candidate (`\x7bbad\x7d`) is corrupted
and which contains a later well-formed JSON span. -/
def c5Input : String := "\x7bbad\x7d \x7b\"a\": 1\x7d"

/-- The later well-formed span inside `c5Input`. -/
def c5LaterSpan : String := "\x7b\"a\": 1\x7d"

/-- A text whose first depth-zero candidate parses (used to witness the
candidate-shape lemma). -/
def c5OkInput : String := "\x7b\"a\": 1\x7d tail"

/-- A round oracle producing three length-limited rounds and then a normal
one. -/
def contOracle : Nat → RoundResult := fun r =>
  if r = 0 then ⟨"A", some "length"⟩
  else if r = 1 then ⟨"B", some "length"⟩
  else if r = 2 then ⟨"C", some "length"⟩
  else ⟨"D", some "stop"⟩

/-- A one-message original exchange. -/
def sysMessages : List ChatMsg := [⟨"system", "s"⟩]

/-- The concatenation of the texts of `n` oracle rounds starting at round
`round` (the order in which `_stream_and_collect` accumulates them). -/
def collectedFrom (oracle : Nat → RoundResult) : Nat → Nat → String
  | _, 0 => ""
  | round, n + 1 => (oracle round).text ++ collectedFrom oracle (round + 1) n

/-- The sanitizer's escaping of one in-string character. -/
def escChar (c : Char) : List Char :=
  if c = '\n' then ['\\', 'n']
  else if c = '\r' then ['\\', 'r']
  else if c = '\t' then ['\\', 't']
  else [c]

/-- `escChar` mapped over a string body. -/
def escContent : List Char → List Char
  | [] => []
  | c :: cs => escChar c ++ escContent cs

/-- A one-field JSON document whose string value is the given raw content
(possibly holding literal newlines/CR/tabs). -/
def mkStrDoc (content : List Char) : String :=
  ⟨'\x7b' :: '"' :: 'k' :: '"' :: ':' :: ' ' :: '"' :: (content ++ ['"', '\x7d'])⟩

/-- A string-value character the tier-2 round trip is about: not a quote,
not a backslash, and either printable (`≥ 0x20`) or one of the literal
newline/CR/tab the sanitizer escapes. -/
def goodStrChar (c : Char) : Prop :=
  c ≠ '"' ∧ c ≠ '\\' ∧ (0x20 ≤ c.toNat ∨ c = '\n' ∨ c = '\r' ∨ c = '\t')

instance : DecidablePred goodStrChar := fun c => by
  unfold goodStrChar; infer_instance

/-- `{"m": "he said "hi" loudly"}` — a string value holding unescaped
quotes whose following significant characters are not structural. -/
def qDoc : String := "\x7b\"m\": \"he said \"hi\" loudly\"\x7d"

/-- The same document with the two inner quotes escaped as content. -/
def qDocEsc : String := "\x7b\"m\": \"he said \\\"hi\\\" loudly\"\x7d"

/-- A segment oracle whose results carry only the key `"x"`. -/
def c7SegOracle : Nat → Except SegmentParseError JDict := fun _ => .ok [("x", .jnull)]

/-- A partial blueprint with a field from an earlier segment and one
accumulated outline chapter. -/
def c7Blueprint : JDict := [("title", .jstr "t"), ("chapter_outline", .jarr [.jstr "c1"])]

/-- Two volumes of the same project: chapters 11, 12, 13 in volume 1 and
21, 22 in volume 2, densely numbered. -/
def mvState : NovelState :=
  ⟨[⟨1, 7⟩, ⟨2, 7⟩],
   [⟨11, 7, 1, 1⟩, ⟨12, 7, 1, 2⟩, ⟨13, 7, 1, 3⟩, ⟨21, 7, 2, 1⟩, ⟨22, 7, 2, 2⟩]⟩

/-- The state after moving chapter 11 of `mvState` from volume 1 to
volume 2 at position 2. -/
def c8Moved : NovelState :=
  match move_chapter_to_volume mvState 11 2 2 with
  | .ok st => st
  | .error _ => mvState

/-- A batch oracle answering every request with the chapters produced by
`chFn` for the requested window, under the `"chapters"` key. -/
def mkFullOracle (chFn : Nat → Nat → Nat → List JValue) :
    Nat → Nat → Nat → Except SegmentParseError JDict :=
  fun b s e => .ok [("chapters", .jarr (chFn b s e))]

/-- The initial batch number of the outline loop
(`len(all_chapters) // chapters_per_batch if all_chapters else 0`). -/
def outlineBatch0 (all0 : List JValue) (bpb : Nat) : Nat :=
  if all0.isEmpty then 0 else all0.length / bpb

/-- The concatenation, in order, of the batch results for the given windows
with batch numbers counted from `b0 + 1`. -/
def joinWindows (chFn : Nat → Nat → Nat → List JValue) : Nat → List (Nat × Nat) → List JValue
  | _, [] => []
  | b0, w :: ws => chFn (b0 + 1) w.1 w.2 ++ joinWindows chFn (b0 + 1) ws

/-- The `ORDER BY chapter_number` comparison is total. -/
instance : IsTotal OutlineRec (fun a b => a.chapter_number ≤ b.chapter_number) :=
  ⟨fun a b => le_total a.chapter_number b.chapter_number⟩

/-- The `ORDER BY chapter_number` comparison is transitive. -/
instance : IsTrans OutlineRec (fun a b => a.chapter_number ≤ b.chapter_number) :=
  ⟨fun _ _ _ h1 h2 => le_trans h1 h2⟩

/-- Strict number order is (vacuously) antisymmetric on rows. -/
instance : IsAntisymm OutlineRec (fun a b => a.chapter_number < b.chapter_number) :=
  ⟨fun _ _ h1 h2 => (lt_asymm h1 h2).elim⟩

/-! ## Theorems -/

/-- Helper for the retry loop: when every remaining attempt fails, the loop
returns a `SegmentParseError` built from the *last* attempt's response and
recorded error. -/
theorem genSegGo_allFail (name : String) (idx : Nat) (responses : Nat → String)
    (maxr : Nat) :
    ∀ rem attempt lm lp lr, 1 ≤ rem → attempt + rem = maxr + 1 →
    (∀ i, attempt ≤ i → i ≤ maxr → attemptFails (responses i) name = true) →
    genSegGo name idx responses rem attempt lm lp lr =
      .error ⟨name, idx, responses maxr, recordedErrMsg (responses maxr) name,
        recordedErrPos (responses maxr) name⟩ := by
  intro rem
  induction rem with
  | zero => intro attempt lm lp lr h1; exact absurd h1 (by omega)
  | succ r ih =>
    intro attempt lm lp lr _ h2 hfail
    have hfa : attemptFails (responses attempt) name = true :=
      hfail attempt le_rfl (by omega)
    unfold attemptFails at hfa
    rcases hp : parse_segment_response_with_error (responses attempt) name with ⟨res, msg, pos⟩
    rw [hp] at hfa
    have hstep : genSegGo name idx responses (r + 1) attempt lm lp lr =
        genSegGo name idx responses r (attempt + 1)
          (pyOrStr (msg.getD "") "解析结果为空") pos (responses attempt) := by
      rcases res with _ | d
      · simp only [genSegGo, hp]
      · have hfa' : d.isEmpty = true := hfa
        simp only [genSegGo, hp, hfa', if_true]
    rw [hstep]
    rcases Nat.eq_zero_or_pos r with hr | hr
    · subst hr
      have ha : attempt = maxr := by omega
      subst ha
      unfold genSegGo recordedErrMsg recordedErrPos
      rw [hp]
    · exact ih (attempt + 1) (pyOrStr (msg.getD "") "解析结果为空") pos (responses attempt)
        hr (by omega) (fun i hi1 hi2 => hfail i (by omega) hi2)

/-- C2 (counterexample): with scripted responses `"x"` (first attempt,
`Expecting value` at offset 0) and `"[x]"` (second attempt, `Expecting
value` at offset 1) and `max_retries = 1`, the returned `SegmentParseError`
carries offset 1 — the *last* attempt's offset — not the first attempt's
offset 0 stated by the claim. -/
theorem C2_counterexample :
    generate_segment_with_retry "basic" 1 c2Responses 1 =
      .error ⟨"basic", 1, "[x]", "Expecting value", some 1⟩ ∧
    parse_segment_response_with_error "x" "basic" =
      (none, some "Expecting value", some 0) ∧
    (some 1 : Option Nat) ≠ some 0 :=
  ⟨rfl, rfl, by decide⟩

/-- C2 (amended): when `_generate_segment_with_retry` exhausts its retry
budget without a successful parse, the returned `SegmentParseError` carries
the raw response text of the last attempt together with the error message
and character offset recorded for the *last* attempt (each attempt records
its first parse tier's error, with `"解析结果为空"` when the parse produced
an empty result rather than an error). -/
theorem C2_last_attempt_error (name : String) (idx : Nat) (responses : Nat → String)
    (maxr : Nat)
    (hfail : ∀ i, i ≤ maxr → attemptFails (responses i) name = true) :
    generate_segment_with_retry name idx responses maxr =
      .error ⟨name, idx, responses maxr, recordedErrMsg (responses maxr) name,
        recordedErrPos (responses maxr) name⟩ :=
  genSegGo_allFail name idx responses maxr (maxr + 1) 0 "" none "" (by omega) (by omega)
    (fun i _ h2 => hfail i h2)

/-- Witness for `C2_last_attempt_error` at the scripted counterexample
responses. -/
theorem C2_last_attempt_error_witness :
    generate_segment_with_retry "basic" 1 c2Responses 1 =
      .error ⟨"basic", 1, c2Responses 1, recordedErrMsg (c2Responses 1) "basic",
        recordedErrPos (c2Responses 1) "basic"⟩ :=
  C2_last_attempt_error "basic" 1 c2Responses 1
    (fun i hi => by
      have h : i = 0 ∨ i = 1 := by omega
      rcases h with h | h <;> subst h <;> rfl)

/-- C10: a backend response whose recovered value normalises to an empty
mapping (for example the well-formed JSON text `"{}"`, or the non-mapping
`"5"`) makes `if result:` false on every attempt, so
`_generate_segment_with_retry` treats the run as a parse failure and
reports `"解析结果为空"` with no offset (no parse error occurred). -/
theorem C10_empty_result_is_failure (name : String) (idx : Nat)
    (responses : Nat → String) (maxr : Nat)
    (hempty : ∀ i, i ≤ maxr →
      parse_segment_response_with_error (responses i) name = (some [], none, none)) :
    generate_segment_with_retry name idx responses maxr =
      .error ⟨name, idx, responses maxr, "解析结果为空", none⟩ ∧
    parse_segment_response_with_error "\x7b\x7d" "basic" = (some [], none, none) ∧
    parse_segment_response_with_error "5" "basic" = (some [], none, none) := by
  refine ⟨?_, rfl, rfl⟩
  have h := genSegGo_allFail name idx responses maxr (maxr + 1) 0 "" none ""
    (by omega) (by omega)
    (fun i _ h2 => by unfold attemptFails; rw [hempty i h2]; rfl)
  unfold generate_segment_with_retry
  rw [h]
  unfold recordedErrMsg recordedErrPos
  rw [hempty maxr le_rfl]
  rfl

/-- Witness for `C10_empty_result_is_failure` with every attempt answering
`"{}"`. -/
theorem C10_witness :
    generate_segment_with_retry "basic" 1 (fun _ => "\x7b\x7d") 1 =
      .error ⟨"basic", 1, "\x7b\x7d", "解析结果为空", none⟩ :=
  (C10_empty_result_is_failure "basic" 1 (fun _ => "\x7b\x7d") 1
    (fun _ _ => rfl)).1

/-- C5 (counterexample): on `{bad} {"a": 1}` — a corrupted first candidate
followed by a well-formed span — `_extract_balanced_json` does *not* extract
the later well-formed span: it returns the naive whole-input span, which is
not valid JSON. -/
theorem C5_counterexample :
    (jloads c5LaterSpan).isOk = true ∧
    extract_balanced_json c5Input.data = some c5Input.data ∧
    extract_balanced_json c5Input.data ≠ some c5LaterSpan.data ∧
    (jloadsList c5Input.data).isOk = false :=
  ⟨rfl, rfl, by decide, rfl⟩

/-- C5 (amended): every depth-zero candidate tested by the balanced scan is
an initial segment of the text from the *first* bracket on — the scan never
advances its start candidate — so a corrupted early candidate followed by a
later disjoint well-formed span falls through to the naive
first-opening-bracket-to-last-closing-bracket fallback instead of
extracting the later span. -/
theorem C5_candidates_from_first_bracket :
    (∀ (fromStart : List Char) (sChar eChar : Char) rem cnt depth instr esc r,
        balScanAux fromStart sChar eChar rem cnt depth instr esc = some r →
        ∃ n, r = fromStart.take n) ∧
    extract_balanced_json c5Input.data = some c5Input.data := by
  constructor
  · intro fromStart sChar eChar rem
    induction rem with
    | nil => intro cnt depth instr esc r h; exact absurd h (by simp [balScanAux])
    | cons c cs ih =>
      intro cnt depth instr esc r h
      unfold balScanAux at h
      by_cases h1 : esc
      · simp only [h1, if_true] at h; exact ih _ _ _ _ _ h
      · simp only [h1, if_false] at h
        by_cases h2 : c = '\\'
        · simp only [h2, if_true] at h; exact ih _ _ _ _ _ h
        · simp only [h2, if_false] at h
          by_cases h3 : c = '"'
          · simp only [h3, if_true] at h; exact ih _ _ _ _ _ h
          · simp only [h3, if_false] at h
            by_cases h4 : instr
            · simp only [h4, if_true] at h; exact ih _ _ _ _ _ h
            · simp only [h4, if_false] at h
              by_cases h5 : c = sChar
              · simp only [h5, if_true] at h; exact ih _ _ _ _ _ h
              · simp only [h5, if_false] at h
                by_cases h6 : c = eChar
                · simp only [h6, if_true] at h
                  by_cases h7 : depth - 1 = 0
                  · simp only [h7, if_true] at h
                    by_cases h8 : (jloadsList (fromStart.take (cnt + 1))).isOk
                    · simp only [h8, if_true] at h
                      exact ⟨cnt + 1, (Option.some_inj.mp h).symm⟩
                    · simp only [h8, if_false] at h; exact ih _ _ _ _ _ h
                  · simp only [h7, if_false] at h; exact ih _ _ _ _ _ h
                · simp only [h6, if_false] at h; exact ih _ _ _ _ _ h
  · rfl

/-- Witness for `C5_candidates_from_first_bracket` at a text whose first
candidate parses. -/
theorem C5_witness : ∃ n, c5LaterSpan.data = c5OkInput.data.take n :=
  C5_candidates_from_first_bracket.1 c5OkInput.data '\x7b' '\x7d' c5OkInput.data
    0 0 false false c5LaterSpan.data rfl

/-- C9: when the target volume is the chapter's current volume and the
target number its current number, `move_chapter_to_volume` returns without
modifying any stored position (the state is returned unchanged). -/
theorem C9_noop_move (st : NovelState) (cid tvid : Nat) (n : Int)
    (c : OutlineRec) (v : VolumeRec)
    (hc : st.chapters.find? (fun ch => ch.id == cid) = some c)
    (hv : st.volumes.find? (fun vo => vo.id == tvid) = some v)
    (hproj : c.project_id = v.project_id)
    (hvol : c.volume_id = tvid)
    (hnum : c.chapter_number = n) :
    move_chapter_to_volume st cid tvid n = .ok st := by
  unfold move_chapter_to_volume
  rw [hc, hv]
  simp [hproj, hvol, hnum]

/-- Witness for `C9_noop_move`: moving chapter 12 to its own volume and
number changes nothing. -/
theorem C9_witness : move_chapter_to_volume mvState 12 1 2 = .ok mvState :=
  C9_noop_move mvState 12 1 2 ⟨12, 7, 1, 2⟩ ⟨1, 7⟩ rfl rfl rfl rfl rfl

/-- The first message list sent by the streaming loop is its `current`
argument. -/
theorem streamGo_trace_head (oracle : Nat → RoundResult) (messages : List ChatMsg)
    (rf : Option String) (auto : Bool) (maxc : Nat) :
    ∀ fuel count full current round,
      (streamGo oracle messages rf auto maxc fuel count full current round).1.head? =
        some current := by
  intro fuel
  cases fuel with
  | zero => intro count full current round; rfl
  | succ f =>
    intro count full current round
    simp only [streamGo]
    split <;> rfl

/-- Every message list sent by the streaming loop after the first is the
original message list plus the *previous round's* output as an assistant
turn plus the continuation instruction. -/
theorem streamGo_trace_elt (oracle : Nat → RoundResult) (messages : List ChatMsg)
    (rf : Option String) (auto : Bool) (maxc : Nat) :
    ∀ fuel count full current round j m,
      (streamGo oracle messages rf auto maxc fuel count full current round).1[j + 1]? =
        some m →
      m = messages ++ [⟨"assistant", (oracle (round + j)).text⟩,
        ⟨"user", continueInstruction rf⟩] := by
  intro fuel
  induction fuel with
  | zero =>
    intro count full current round j m h
    exact absurd h (by simp [streamGo])
  | succ f ih =>
    intro count full current round j m h
    unfold streamGo at h
    by_cases hc : ((oracle round).finish == some "length" && auto &&
        decide (count < maxc)) = true
    · rw [if_pos hc] at h
      simp only [List.getElem?_cons_succ] at h
      have h' : (streamGo oracle messages rf auto maxc f (count + 1)
          (full ++ (oracle round).text)
          (messages ++ [⟨"assistant", (oracle round).text⟩,
            ⟨"user", continueInstruction rf⟩]) (round + 1)).1[j]? = some m := h
      cases j with
      | zero =>
        have hh := streamGo_trace_head oracle messages rf auto maxc f (count + 1)
          (full ++ (oracle round).text)
          (messages ++ [⟨"assistant", (oracle round).text⟩,
            ⟨"user", continueInstruction rf⟩]) (round + 1)
        have hz : ∀ (l : List (List ChatMsg)), l[0]? = l.head? := by
          intro l; cases l <;> simp
        rw [hz] at h'
        rw [hh] at h'
        have hm := Option.some_inj.mp h'
        rw [← hm]
        simp
      | succ j' =>
        have := ih (count + 1) (full ++ (oracle round).text)
          (messages ++ [⟨"assistant", (oracle round).text⟩,
            ⟨"user", continueInstruction rf⟩]) (round + 1) j' m h'
        rw [this]
        have harith : round + 1 + j' = round + (j' + 1) := by omega
        rw [harith]
    · rw [if_neg hc] at h
      simp only [List.getElem?_cons_succ, List.getElem?_nil] at h
      exact absurd h (by simp)

/-- C3 (counterexample): with three scripted rounds `A`, `B` (both
length-limited) then `C`, the third round's request carries only the
*previous* round's text `"B"` as the prior assistant turn — not the entire
accumulated text `"AB"` stated by the claim. -/
theorem C3_counterexample :
    (stream_and_collect contOracle sysMessages (some "json_object") true 5).1[2]? =
      some (sysMessages ++ [⟨"assistant", "B"⟩,
        ⟨"user", continueInstruction (some "json_object")⟩]) ∧
    (stream_and_collect contOracle sysMessages (some "json_object") true 5).2 =
      some "ABCD" ∧
    sysMessages ++ [⟨"assistant", "B"⟩,
        ⟨"user", continueInstruction (some "json_object")⟩] ≠
      sysMessages ++ [⟨"assistant", "AB"⟩,
        ⟨"user", continueInstruction (some "json_object")⟩] :=
  ⟨rfl, rfl, by decide⟩

/-- C3 (amended): whenever a round ends length-limited and the continuation
counter is below the maximum, the next request's message list is the
original message list plus the *most recent round's* output appended as a
prior assistant turn, followed by the continuation instruction (for
`json_object` responses, the explicit continue-from-cut-off-without-
repeating instruction). -/
theorem C3_continuation_messages (oracle : Nat → RoundResult) (messages : List ChatMsg)
    (rf : Option String) (maxc : Nat) (r : Nat) (h1 : 1 ≤ r)
    (h2 : r < (stream_and_collect oracle messages rf true maxc).1.length) :
    (stream_and_collect oracle messages rf true maxc).1[r]? =
      some (messages ++ [⟨"assistant", (oracle (r - 1)).text⟩,
        ⟨"user", continueInstruction rf⟩]) := by
  have hm : (stream_and_collect oracle messages rf true maxc).1[r]? =
      some ((stream_and_collect oracle messages rf true maxc).1.get ⟨r, h2⟩) :=
    List.getElem?_eq_getElem h2
  obtain ⟨j, rfl⟩ : ∃ j, r = j + 1 := ⟨r - 1, by omega⟩
  have := streamGo_trace_elt oracle messages rf true maxc (maxc + 1) 0 "" messages 0 j
    ((stream_and_collect oracle messages rf true maxc).1.get ⟨j + 1, h2⟩) hm
  rw [hm, this]
  simp

/-- Witness for `C3_continuation_messages` at the scripted oracle. -/
theorem C3_witness :
    (stream_and_collect contOracle sysMessages (some "json_object") true 5).1[2]? =
      some (sysMessages ++ [⟨"assistant", (contOracle 1).text⟩,
        ⟨"user", continueInstruction (some "json_object")⟩]) :=
  C3_continuation_messages contOracle sysMessages (some "json_object") 5 2
    (by omega) (by decide)

/-- The streaming loop's round count is bounded by its fuel, and its result
is the accumulator plus the concatenation of all rounds' texts — `none`
(the raised `HTTPException`) exactly when that total text is empty. -/
theorem streamGo_spec (oracle : Nat → RoundResult) (messages : List ChatMsg)
    (rf : Option String) (maxc : Nat) :
    ∀ fuel count full current round, 1 ≤ fuel → count + fuel = maxc + 1 →
      ((streamGo oracle messages rf true maxc fuel count full current round).1.length ≤
        fuel) ∧
      ((streamGo oracle messages rf true maxc fuel count full current round).2 =
        (if full ++ collectedFrom oracle round
            (streamGo oracle messages rf true maxc fuel count full current round).1.length
            = ""
         then none
         else some (full ++ collectedFrom oracle round
            (streamGo oracle messages rf true maxc fuel count full current round).1.length))) := by
  intro fuel
  induction fuel with
  | zero => intro count full current round h1; exact absurd h1 (by omega)
  | succ f ih =>
    intro count full current round _ h2
    unfold streamGo
    by_cases hc : ((oracle round).finish == some "length" && true &&
        decide (count < maxc)) = true
    · rw [if_pos hc]
      have hcount : count < maxc := by
        have := hc
        simp only [Bool.and_eq_true, decide_eq_true_eq] at this
        exact this.2
      have hf : 1 ≤ f := by omega
      have hrec := ih (count + 1) (full ++ (oracle round).text)
        (messages ++ [⟨"assistant", (oracle round).text⟩,
          ⟨"user", continueInstruction rf⟩]) (round + 1) hf (by omega)
      constructor
      · simpa using Nat.succ_le_succ hrec.1
      · have hlen : ((streamGo oracle messages rf true maxc (f) (count+1)
            (full ++ (oracle round).text)
            (messages ++ [⟨"assistant", (oracle round).text⟩,
              ⟨"user", continueInstruction rf⟩]) (round + 1)).1.length + 1) - 1 =
            (streamGo oracle messages rf true maxc (f) (count+1)
            (full ++ (oracle round).text)
            (messages ++ [⟨"assistant", (oracle round).text⟩,
              ⟨"user", continueInstruction rf⟩]) (round + 1)).1.length := by omega
        show (streamGo oracle messages rf true maxc (f) (count+1) _ _ (round+1)).2 = _
        rw [hrec.2]
        have hjoin : ∀ n, (full ++ (oracle round).text) ++
            collectedFrom oracle (round + 1) n =
            full ++ collectedFrom oracle round (n + 1) := by
          intro n
          show (full ++ (oracle round).text) ++ collectedFrom oracle (round + 1) n = _
          rw [String.append_assoc]
          rfl
        rw [hjoin]
        rfl
    · rw [if_neg hc]
      refine ⟨by simp, ?_⟩
      show (if full ++ (oracle round).text = "" then none
            else some (full ++ (oracle round).text)) = _
      have h1 : ([current] : List (List ChatMsg)).length = 1 := rfl
      rw [h1]
      have : full ++ collectedFrom oracle round 1 = full ++ (oracle round).text := by
        show full ++ ((oracle round).text ++ "") = _
        rw [String.append_empty]
      rw [this]

/-- C4: `_stream_and_collect` performs at most `max_continuations`
continuation rounds (at most `max_continuations + 1` rounds in total); its
result is the concatenation of all rounds' texts in order, returned without
raising even when the final completion reason is still `length` (scenario:
three length-limited rounds under `max_continuations = 2` return `"ABC"`),
and the error (`HTTPException`) is raised exactly when the accumulated
output is empty. -/
theorem C4_continuation_bound (oracle : Nat → RoundResult) (messages : List ChatMsg)
    (rf : Option String) (maxc : Nat) :
    ((stream_and_collect oracle messages rf true maxc).1.length ≤ maxc + 1) ∧
    ((stream_and_collect oracle messages rf true maxc).2 =
      (if collectedFrom oracle 0 (stream_and_collect oracle messages rf true maxc).1.length
          = ""
       then none
       else some (collectedFrom oracle 0
          (stream_and_collect oracle messages rf true maxc).1.length))) ∧
    (stream_and_collect contOracle sysMessages (some "json_object") true 2).1.length = 3 ∧
    (stream_and_collect contOracle sysMessages (some "json_object") true 2).2 =
      some "ABC" ∧
    (contOracle 2).finish = some "length" ∧
    (stream_and_collect (fun _ => ⟨"", some "stop"⟩) sysMessages none true 5).2 = none := by
  have h := streamGo_spec oracle messages rf maxc (maxc + 1) 0 "" messages 0
    (by omega) (by omega)
  exact ⟨h.1, h.2, rfl, rfl, rfl, rfl⟩

/-- `outline_data.get("chapters", ...)` on a single-key batch result. -/
theorem chaptersFromData_single (v : JValue) :
    chaptersFromData [("chapters", v)] = v := rfl

/-- The outline batch loop under an always-successful, exactly-full-window
oracle: the requested windows are precisely the spec's batching schedule
(consecutively numbered), and the result appends each batch's chapters in
order to the accumulated list. -/
theorem chapterOutlineGo_full (chFn : Nat → Nat → Nat → List JValue) (total bpb : Nat)
    (hbpb : 1 ≤ bpb)
    (hsize : ∀ b s e, s ≤ e → (chFn b s e).length = e + 1 - s) :
    ∀ fuel start bnum all,
      chapterOutlineGo (mkFullOracle chFn) total bpb fuel bnum start all =
        ((List.enumFrom (bnum + 1) (batchWindowsGo total bpb fuel start)).map
            (fun p => .batch p.1 p.2.1 p.2.2),
         .ok (all ++ joinWindows chFn bnum (batchWindowsGo total bpb fuel start))) := by
  intro fuel
  induction fuel with
  | zero =>
    intro start bnum all
    simp [chapterOutlineGo, batchWindowsGo, joinWindows]
  | succ f ih =>
    intro start bnum all
    by_cases hlt : total < start
    · simp [chapterOutlineGo, batchWindowsGo, hlt, joinWindows]
    · have hse : start ≤ min (start + bpb - 1) total := by
        refine le_min (by omega) (by omega)
      have hlen : (chFn (bnum + 1) start (min (start + bpb - 1) total)).length =
          min (start + bpb - 1) total + 1 - start := hsize _ _ _ hse
      have hne : (chFn (bnum + 1) start (min (start + bpb - 1) total)).isEmpty = false := by
        rcases hl : chFn (bnum + 1) start (min (start + bpb - 1) total) with _ | ⟨a, l⟩
        · rw [hl] at hlen
          simp at hlen
          omega
        · rfl
      simp only [chapterOutlineGo, batchWindowsGo, hlt, if_false, mkFullOracle,
        chaptersFromData_single, pyTruthy, hne, Bool.not_false, if_true, jvalueElems,
        ih, joinWindows, List.enumFrom, List.map_cons]
      rw [List.append_assoc]

/-- C1: under full-size batch responses the chunked outline segment requests
batches exactly while the accumulated count is below the target, each batch
clamped to the remaining count, appending every batch's chapters in order;
with `total_chapters = 120` and `chapters_per_batch = 50` the windows are
1–50, 51–100, 101–120; a failure at batch 2 returns `current_batch = 2` with
the first 50 chapters preserved; resuming from those 50 chapters requests
51–100 and 101–120 only and yields chapters 1–120 without duplication. -/
theorem C1_chunked_outline :
    (∀ (chFn : Nat → Nat → Nat → List JValue) (total bpb : Nat) (all0 : List JValue),
      1 ≤ bpb →
      (∀ b s e, s ≤ e → (chFn b s e).length = e + 1 - s) →
      chapter_outline_segment (mkFullOracle chFn) total bpb all0 =
        ((List.enumFrom (outlineBatch0 all0 bpb + 1)
            (batchWindows (all0.length + 1) total bpb)).map
            (fun p => .batch p.1 p.2.1 p.2.2),
         .ok (all0 ++ joinWindows chFn (outlineBatch0 all0 bpb)
            (batchWindows (all0.length + 1) total bpb)))) ∧
    batchWindows 1 120 50 = [(1, 50), (51, 100), (101, 120)] ∧
    chapter_outline_segment failAt2Oracle 120 50 [] =
      ([.batch 1 1 50, .batch 2 51 100],
       .error (sampleBatchError, mkChs 1 50, ⟨120, 50, some 2⟩)) ∧
    chapter_outline_segment fullBatchOracle 120 50 (mkChs 1 50) =
      ([.batch 2 51 100, .batch 3 101 120], .ok (mkChs 1 120)) ∧
    mkChs 1 120 = mkChs 1 50 ++ mkChs 51 120 := by
  refine ⟨?_, rfl, rfl, rfl, rfl⟩
  intro chFn total bpb all0 hbpb hsize
  unfold chapter_outline_segment outlineBatch0 batchWindows
  exact chapterOutlineGo_full chFn total bpb hbpb hsize (total + 1) (all0.length + 1)
    (if all0.isEmpty then 0 else all0.length / bpb) all0

/-- Witness for `C1_chunked_outline` with the concrete full oracle from an
empty outline. -/
theorem C1_witness :
    chapter_outline_segment fullBatchOracle 120 50 [] =
      ((List.enumFrom 1 (batchWindows 1 120 50)).map
          (fun p => .batch p.1 p.2.1 p.2.2),
       .ok ([] ++ joinWindows (fun _ s e => mkChs s e) 0 (batchWindows 1 120 50))) :=
  C1_chunked_outline.1 (fun _ s e => mkChs s e) 120 50 [] (by omega)
    (fun b s e hse => by simp [mkChs])

/-- Replacing the value stored under key `k` leaves lookups of other keys
unchanged. -/
theorem dictLookup_mapRepl (k s : String) (v : JValue) (h : s ≠ k) :
    ∀ d : JDict,
      dictLookup (d.map (fun kv => if kv.1 = k then (kv.1, v) else kv)) s =
        dictLookup d s := by
  intro d
  induction d with
  | nil => rfl
  | cons kv rest ih =>
    by_cases hk : kv.1 = k
    · have hs : (kv.1 == s) = false := by
        simp only [beq_eq_false_iff_ne]
        rw [hk]
        exact Ne.symm h
      unfold dictLookup
      simp only [List.map_cons, if_pos hk, List.find?_cons, hs]
      exact ih
    · by_cases hs : (kv.1 == s) = true
      · unfold dictLookup
        simp [List.map_cons, if_neg hk, List.find?_cons, hs]
      · have hs' : (kv.1 == s) = false := by simpa using hs
        unfold dictLookup
        simp only [List.map_cons, if_neg hk, List.find?_cons, hs']
        exact ih

/-- Appending a binding for key `k` leaves lookups of other keys
unchanged. -/
theorem dictLookup_append_ne (k s : String) (v : JValue) (h : s ≠ k) :
    ∀ d : JDict, dictLookup (d ++ [(k, v)]) s = dictLookup d s := by
  intro d
  induction d with
  | nil =>
    unfold dictLookup
    simp [List.find?_cons, beq_eq_false_iff_ne, h, Ne.symm h]
  | cons kv rest ih =>
    unfold dictLookup
    by_cases hs : kv.1 == s
    · simp [List.find?_cons, hs]
    · simp only [List.cons_append, List.find?_cons, hs]
      exact ih

/-- `d[k] = v` leaves lookups of other keys unchanged. -/
theorem dictLookup_dictSet_ne (d : JDict) (k s : String) (v : JValue) (h : s ≠ k) :
    dictLookup (dictSet d k v) s = dictLookup d s := by
  unfold dictSet
  split
  · exact dictLookup_mapRepl k s v h d
  · exact dictLookup_append_ne k s v h d

/-- Lookup through the key-replacing map when the key occurs. -/
theorem dictLookup_mapRepl_self (k : String) (v : JValue) :
    ∀ d : JDict, (d.find? (·.1 == k)).isSome = true →
      dictLookup (d.map (fun kv => if kv.1 = k then (kv.1, v) else kv)) k = some v := by
  intro d
  induction d with
  | nil => intro h; simp [List.find?] at h
  | cons kv rest ih =>
    intro h
    by_cases hk : kv.1 = k
    · have hb : (kv.1 == k) = true := by simp [hk]
      unfold dictLookup
      simp [List.map_cons, if_pos hk, List.find?_cons, hb]
    · have hb : (kv.1 == k) = false := by simpa using hk
      simp only [List.find?_cons, hb] at h
      unfold dictLookup
      simp only [List.map_cons, if_neg hk, List.find?_cons, hb]
      exact ih h

/-- Lookup after appending a binding for a key that was absent. -/
theorem dictLookup_append_self (k : String) (v : JValue) :
    ∀ d : JDict, (d.find? (·.1 == k)).isSome = false →
      dictLookup (d ++ [(k, v)]) k = some v := by
  intro d
  induction d with
  | nil => intro _; simp [dictLookup, List.find?_cons]
  | cons kv rest ih =>
    intro h
    by_cases hb : (kv.1 == k) = true
    · simp [List.find?_cons, hb] at h
    · have hb' : (kv.1 == k) = false := by simpa using hb
      simp only [List.find?_cons, hb'] at h
      unfold dictLookup
      simp only [List.cons_append, List.find?_cons, hb']
      exact ih h

/-- `d[k] = v` makes the lookup of `k` return `v`. -/
theorem dictLookup_dictSet_self (k : String) (v : JValue) (d : JDict) :
    dictLookup (dictSet d k v) k = some v := by
  unfold dictSet
  split
  case isTrue h => exact dictLookup_mapRepl_self k v d h
  case isFalse h =>
    exact dictLookup_append_self k v d (by simp only [Bool.not_eq_true] at h; exact h)

/-- `d.update(new)` leaves lookups of keys not in `new` unchanged. -/
theorem dictLookup_dictUpdate_not_mem :
    ∀ (new d : JDict) (s : String), (∀ kv ∈ new, kv.1 ≠ s) →
      dictLookup (dictUpdate d new) s = dictLookup d s := by
  intro new
  induction new with
  | nil => intro d s _; rfl
  | cons kv rest ih =>
    intro d s h
    have h1 : dictUpdate d (kv :: rest) = dictUpdate (dictSet d kv.1 kv.2) rest := rfl
    rw [h1, ih (dictSet d kv.1 kv.2) s (fun x hx => h x (List.mem_cons_of_mem kv hx)),
      dictLookup_dictSet_ne d kv.1 s kv.2 (Ne.symm (h kv (List.mem_cons_self kv rest)))]

/-- Every request issued by the outline batch loop is a batch request
(segment index 5). -/
theorem chapterOutlineGo_trace_batch (oracle : Nat → Nat → Nat → Except SegmentParseError JDict)
    (total bpb : Nat) :
    ∀ fuel bnum start all req,
      req ∈ (chapterOutlineGo oracle total bpb fuel bnum start all).1 →
      segReqIndex req = 5 := by
  intro fuel
  induction fuel with
  | zero => intro bnum start all req h; exact absurd h (by simp [chapterOutlineGo])
  | succ f ih =>
    intro bnum start all req h
    by_cases hlt : total < start
    · simp only [chapterOutlineGo, hlt, if_true] at h
      exact absurd h (by simp)
    · simp only [chapterOutlineGo, hlt, if_false] at h
      rcases ho : oracle (bnum + 1) start (min (start + bpb - 1) total) with e | d
      · rw [ho] at h
        simp only [List.mem_singleton] at h
        subst h
        rfl
      · rw [ho] at h
        simp only [List.mem_cons] at h
        rcases h with h | h
        · subst h; rfl
        · exact ih _ _ _ req h

/-- The outline batch loop only ever appends to the accumulated chapter
list, in both its success and its failure outcome. -/
theorem chapterOutlineGo_extends (oracle : Nat → Nat → Nat → Except SegmentParseError JDict)
    (total bpb : Nat) :
    ∀ fuel bnum start all,
      ∃ l2, (chapterOutlineGo oracle total bpb fuel bnum start all).2 = .ok (all ++ l2) ∨
        ∃ e ctx, (chapterOutlineGo oracle total bpb fuel bnum start all).2 =
          .error (e, all ++ l2, ctx) := by
  intro fuel
  induction fuel with
  | zero =>
    intro bnum start all
    exact ⟨[], Or.inl (by simp [chapterOutlineGo])⟩
  | succ f ih =>
    intro bnum start all
    by_cases hlt : total < start
    · refine ⟨[], Or.inl ?_⟩
      simp [chapterOutlineGo, hlt]
    · rcases ho : oracle (bnum + 1) start (min (start + bpb - 1) total) with e | d
      · refine ⟨[], Or.inr ⟨e, ⟨total, bpb, some (bnum + 1)⟩, ?_⟩⟩
        simp [chapterOutlineGo, hlt, ho]
      · by_cases htr : pyTruthy (chaptersFromData d) = true
        · rcases ih (bnum + 1) (min (start + bpb - 1) total + 1)
            (all ++ jvalueElems (chaptersFromData d)) with ⟨l2, h2⟩
          refine ⟨jvalueElems (chaptersFromData d) ++ l2, ?_⟩
          simp only [chapterOutlineGo, hlt, if_false, ho, htr, if_true,
            ← List.append_assoc]
          exact h2
        · rcases ih (bnum + 1) (min (start + bpb - 1) total + 1) all with ⟨l2, h2⟩
          refine ⟨l2, ?_⟩
          simp only [chapterOutlineGo, hlt, if_false, ho,
            Bool.not_eq_true] at htr ⊢
          simp only [htr, if_false]
          exact h2

/-- Case analysis of one orchestrator segment step. -/
theorem stepSeg_cases (k i : Nat) (oracle : Nat → Except SegmentParseError JDict)
    (total bpb : Nat) (st : JDict × List SegReq) :
    (∃ d, k ≤ i ∧ oracle i = .ok d ∧
        stepSeg k i oracle total bpb st = .ok (dictUpdate st.1 d, st.2 ++ [.seg i])) ∨
    (¬ k ≤ i ∧ stepSeg k i oracle total bpb st = .ok st) ∨
    (∃ e, k ≤ i ∧ oracle i = .error e ∧
        stepSeg k i oracle total bpb st =
          .error (st.2 ++ [.seg i],
            ⟨false, none, some e, some st.1, some ⟨total, bpb, none⟩⟩)) := by
  unfold stepSeg
  by_cases hk : k ≤ i
  · rcases ho : oracle i with e | d
    · exact Or.inr (Or.inr ⟨e, hk, rfl, by simp [hk]⟩)
    · exact Or.inl ⟨d, hk, rfl, by simp [hk]⟩
  · exact Or.inr (Or.inl ⟨hk, by simp [hk]⟩)

/-- One orchestrator step preserves the trace bound `k ≤ index` and, when
the executed segment's result keys are disjoint from the supplied partial
blueprint, all of the partial blueprint's lookups. -/
theorem stepSeg_preserves (k i : Nat) (oracle : Nat → Except SegmentParseError JDict)
    (total bpb : Nat) (st : JDict × List SegReq) (bp0 : JDict)
    (hdisj : ∀ d, k ≤ i → oracle i = .ok d → ∀ kv ∈ d, dictLookup bp0 kv.1 = none)
    (hinv1 : ∀ req ∈ st.2, k ≤ segReqIndex req)
    (hinv2 : ∀ s, (dictLookup bp0 s).isSome = true → dictLookup st.1 s = dictLookup bp0 s) :
    (∀ st', stepSeg k i oracle total bpb st = .ok st' →
      (∀ req ∈ st'.2, k ≤ segReqIndex req) ∧
      (∀ s, (dictLookup bp0 s).isSome = true →
        dictLookup st'.1 s = dictLookup bp0 s)) ∧
    (∀ tr res, stepSeg k i oracle total bpb st = .error (tr, res) →
      (∀ req ∈ tr, k ≤ segReqIndex req) ∧ resultBlueprint res = st.1) := by
  rcases stepSeg_cases k i oracle total bpb st with
    ⟨d, hk, ho, heq⟩ | ⟨hk, heq⟩ | ⟨e, hk, ho, heq⟩
  · constructor
    · intro st' h
      rw [heq] at h
      cases h
      constructor
      · intro req hreq
        rcases List.mem_append.mp hreq with hin | hin
        · exact hinv1 req hin
        · simp only [List.mem_singleton] at hin
          subst hin
          exact hk
      · intro s hs
        have hnot : ∀ kv ∈ d, kv.1 ≠ s := by
          intro kv hkv heqs
          have := hdisj d hk ho kv hkv
          rw [heqs, ← hinv2 s hs] at this
          rw [hinv2 s hs] at this
          rw [this] at hs
          simp at hs
        rw [dictLookup_dictUpdate_not_mem d st.1 s hnot]
        exact hinv2 s hs
    · intro tr res h
      rw [heq] at h
      simp at h
  · constructor
    · intro st' h
      rw [heq] at h
      cases h
      exact ⟨hinv1, hinv2⟩
    · intro tr res h
      rw [heq] at h
      simp at h
  · constructor
    · intro st' h
      rw [heq] at h
      simp at h
    · intro tr res h
      rw [heq] at h
      cases h
      constructor
      · intro req hreq
        rcases List.mem_append.mp hreq with hin | hin
        · exact hinv1 req hin
        · simp only [List.mem_singleton] at hin
          subst hin
          exact hk
      · rfl

/-- The orchestrator's segment-5 stage preserves the frame: only the
`chapter_outline` field changes, and it is only extended. -/
theorem seg5Run_props (batchOracle : Nat → Nat → Nat → Except SegmentParseError JDict)
    (total bpb k : Nat) (st4 : JDict × List SegReq) (bp0 : JDict)
    (inv1 : ∀ req ∈ st4.2, k ≤ segReqIndex req)
    (inv2 : ∀ s, (dictLookup bp0 s).isSome = true →
      dictLookup st4.1 s = dictLookup bp0 s) :
    (∀ req ∈ (seg5Run batchOracle total bpb k st4).1, k ≤ segReqIndex req) ∧
    (∀ s, s ≠ "chapter_outline" → (dictLookup bp0 s).isSome = true →
      dictLookup (resultBlueprint (seg5Run batchOracle total bpb k st4).2) s =
        dictLookup bp0 s) ∧
    (∀ l, dictLookup bp0 "chapter_outline" = some (.jarr l) →
      ∃ l2, dictLookup (resultBlueprint (seg5Run batchOracle total bpb k st4).2)
        "chapter_outline" = some (.jarr (l ++ l2))) := by
  by_cases hk5 : k ≤ 5
  · have htr5 : ∀ req ∈ (chapter_outline_segment batchOracle total bpb
        (jarrElems (dictLookup st4.1 "chapter_outline"))).1,
        k ≤ segReqIndex req := by
      intro req hreq
      have := chapterOutlineGo_trace_batch batchOracle total bpb (total + 1) _ _ _ req hreq
      omega
    rcases chapterOutlineGo_extends batchOracle total bpb (total + 1)
      (if (jarrElems (dictLookup st4.1 "chapter_outline")).isEmpty then 0
       else (jarrElems (dictLookup st4.1 "chapter_outline")).length / bpb)
      ((jarrElems (dictLookup st4.1 "chapter_outline")).length + 1)
      (jarrElems (dictLookup st4.1 "chapter_outline")) with ⟨l2, hext⟩
    rcases h5 : (chapter_outline_segment batchOracle total bpb
        (jarrElems (dictLookup st4.1 "chapter_outline"))).2 with p5 | chs
    · rcases p5 with ⟨e5, chs5, ctx5⟩
      have hchs : chs5 = jarrElems (dictLookup st4.1 "chapter_outline") ++ l2 := by
        rcases hext with hok | ⟨e', ctx', herr⟩
        · rw [show (chapter_outline_segment batchOracle total bpb
              (jarrElems (dictLookup st4.1 "chapter_outline"))).2 =
              (chapterOutlineGo batchOracle total bpb (total + 1)
                (if (jarrElems (dictLookup st4.1 "chapter_outline")).isEmpty then 0
                 else (jarrElems (dictLookup st4.1 "chapter_outline")).length / bpb)
                ((jarrElems (dictLookup st4.1 "chapter_outline")).length + 1)
                (jarrElems (dictLookup st4.1 "chapter_outline"))).2 from rfl] at h5
          rw [h5] at hok
          simp at hok
        · rw [show (chapter_outline_segment batchOracle total bpb
              (jarrElems (dictLookup st4.1 "chapter_outline"))).2 =
              (chapterOutlineGo batchOracle total bpb (total + 1)
                (if (jarrElems (dictLookup st4.1 "chapter_outline")).isEmpty then 0
                 else (jarrElems (dictLookup st4.1 "chapter_outline")).length / bpb)
                ((jarrElems (dictLookup st4.1 "chapter_outline")).length + 1)
                (jarrElems (dictLookup st4.1 "chapter_outline"))).2 from rfl] at h5
          rw [h5] at herr
          injection herr with herr1
          exact congrArg (fun t => t.2.1) herr1
      simp only [seg5Run, hk5, if_true, h5]
      refine ⟨?_, ?_, ?_⟩
      · intro req hreq
        rcases List.mem_append.mp hreq with hin | hin
        · exact inv1 req hin
        · exact htr5 req hin
      · intro s hsne hs
        show dictLookup (dictSet st4.1 "chapter_outline" (.jarr chs5)) s =
          dictLookup bp0 s
        rw [dictLookup_dictSet_ne st4.1 "chapter_outline" s (.jarr chs5) hsne]
        exact inv2 s hs
      · intro l hl
        have hst4 : dictLookup st4.1 "chapter_outline" = some (.jarr l) := by
          rw [inv2 "chapter_outline" (by rw [hl]; rfl)]
          exact hl
        refine ⟨l2, ?_⟩
        show dictLookup (dictSet st4.1 "chapter_outline" (.jarr chs5))
          "chapter_outline" = some (.jarr (l ++ l2))
        rw [dictLookup_dictSet_self, hchs, hst4]
        rfl
    · have hchs : chs = jarrElems (dictLookup st4.1 "chapter_outline") ++ l2 := by
        rcases hext with hok | ⟨e', ctx', herr⟩
        · rw [show (chapter_outline_segment batchOracle total bpb
              (jarrElems (dictLookup st4.1 "chapter_outline"))).2 =
              (chapterOutlineGo batchOracle total bpb (total + 1)
                (if (jarrElems (dictLookup st4.1 "chapter_outline")).isEmpty then 0
                 else (jarrElems (dictLookup st4.1 "chapter_outline")).length / bpb)
                ((jarrElems (dictLookup st4.1 "chapter_outline")).length + 1)
                (jarrElems (dictLookup st4.1 "chapter_outline"))).2 from rfl] at h5
          rw [h5] at hok
          exact Except.ok.inj hok
        · rw [show (chapter_outline_segment batchOracle total bpb
              (jarrElems (dictLookup st4.1 "chapter_outline"))).2 =
              (chapterOutlineGo batchOracle total bpb (total + 1)
                (if (jarrElems (dictLookup st4.1 "chapter_outline")).isEmpty then 0
                 else (jarrElems (dictLookup st4.1 "chapter_outline")).length / bpb)
                ((jarrElems (dictLookup st4.1 "chapter_outline")).length + 1)
                (jarrElems (dictLookup st4.1 "chapter_outline"))).2 from rfl] at h5
          rw [h5] at herr
          simp at herr
      simp only [seg5Run, hk5, if_true, h5]
      refine ⟨?_, ?_, ?_⟩
      · intro req hreq
        rcases List.mem_append.mp hreq with hin | hin
        · exact inv1 req hin
        · exact htr5 req hin
      · intro s hsne hs
        show dictLookup (dictSet st4.1 "chapter_outline" (.jarr chs)) s =
          dictLookup bp0 s
        rw [dictLookup_dictSet_ne st4.1 "chapter_outline" s (.jarr chs) hsne]
        exact inv2 s hs
      · intro l hl
        have hst4 : dictLookup st4.1 "chapter_outline" = some (.jarr l) := by
          rw [inv2 "chapter_outline" (by rw [hl]; rfl)]
          exact hl
        refine ⟨l2, ?_⟩
        show dictLookup (dictSet st4.1 "chapter_outline" (.jarr chs))
          "chapter_outline" = some (.jarr (l ++ l2))
        rw [dictLookup_dictSet_self, hchs, hst4]
        rfl
  · simp only [seg5Run, hk5, if_false]
    refine ⟨inv1, ?_, ?_⟩
    · intro s _ hs
      exact inv2 s hs
    · intro l hl
      refine ⟨[], ?_⟩
      rw [List.append_nil]
      show dictLookup st4.1 "chapter_outline" = _
      rw [inv2 "chapter_outline" (by rw [hl]; rfl)]
      exact hl

/-- C7: resuming with `start_from_segment = k` never requests a segment of
index `< k`, and — when the resumed segments' results carry only keys
disjoint from the supplied partial blueprint — every non-outline field of
the partial blueprint is unchanged in the returned blueprint (successful or
partial), while the partial blueprint's `chapter_outline` list is only ever
extended. -/
theorem C7_resume_frame (segOracle : Nat → Except SegmentParseError JDict)
    (batchOracle : Nat → Nat → Nat → Except SegmentParseError JDict)
    (total bpb k : Nat) (bp0 : JDict)
    (hdisj : ∀ i d, k ≤ i → i ≤ 4 → segOracle i = .ok d →
      ∀ kv ∈ d, dictLookup bp0 kv.1 = none) :
    (∀ req ∈ (generate_blueprint_in_segments segOracle batchOracle total bpb k bp0).1,
      k ≤ segReqIndex req) ∧
    (∀ s, s ≠ "chapter_outline" → (dictLookup bp0 s).isSome = true →
      dictLookup (resultBlueprint
        (generate_blueprint_in_segments segOracle batchOracle total bpb k bp0).2) s =
        dictLookup bp0 s) ∧
    (∀ l, dictLookup bp0 "chapter_outline" = some (.jarr l) →
      ∃ l2, dictLookup (resultBlueprint
        (generate_blueprint_in_segments segOracle batchOracle total bpb k bp0).2)
        "chapter_outline" = some (.jarr (l ++ l2))) := by
  have base1 : ∀ req ∈ ([] : List SegReq), k ≤ segReqIndex req := by simp
  have base2 : ∀ s, (dictLookup bp0 s).isSome = true →
      dictLookup (bp0, ([] : List SegReq)).1 s = dictLookup bp0 s := fun s _ => rfl
  have run : ∀ (st : JDict × List SegReq) (i : Nat), i ≤ 4 →
      (∀ req ∈ st.2, k ≤ segReqIndex req) →
      (∀ s, (dictLookup bp0 s).isSome = true →
        dictLookup st.1 s = dictLookup bp0 s) →
      (∀ st', stepSeg k i segOracle total bpb st = .ok st' →
        (∀ req ∈ st'.2, k ≤ segReqIndex req) ∧
        (∀ s, (dictLookup bp0 s).isSome = true →
          dictLookup st'.1 s = dictLookup bp0 s)) ∧
      (∀ tr res, stepSeg k i segOracle total bpb st = .error (tr, res) →
        (∀ req ∈ tr, k ≤ segReqIndex req) ∧ resultBlueprint res = st.1) := by
    intro st i hi4 h1 h2
    exact stepSeg_preserves k i segOracle total bpb st bp0
      (fun d hk ho => hdisj i d hk hi4 ho) h1 h2
  have errGoal : ∀ (tr : List SegReq) (res : BlueprintGenerationResult) (bp : JDict),
      (∀ req ∈ tr, k ≤ segReqIndex req) → resultBlueprint res = bp →
      (∀ s, (dictLookup bp0 s).isSome = true → dictLookup bp s = dictLookup bp0 s) →
      (∀ req ∈ tr, k ≤ segReqIndex req) ∧
      (∀ s, s ≠ "chapter_outline" → (dictLookup bp0 s).isSome = true →
        dictLookup (resultBlueprint res) s = dictLookup bp0 s) ∧
      (∀ l, dictLookup bp0 "chapter_outline" = some (.jarr l) →
        ∃ l2, dictLookup (resultBlueprint res) "chapter_outline" =
          some (.jarr (l ++ l2))) := by
    intro tr res bp htr hres hbp
    refine ⟨htr, ?_, ?_⟩
    · intro s _ hs
      rw [hres]
      exact hbp s hs
    · intro l hl
      refine ⟨[], ?_⟩
      rw [hres, List.append_nil, hbp "chapter_outline" (by rw [hl]; rfl)]
      exact hl
  rcases h1 : stepSeg k 1 segOracle total bpb (bp0, []) with p1 | st1
  · rcases p1 with ⟨tr1, res1⟩
    rcases ((run (bp0, []) 1 (by omega) base1 base2).2 tr1 res1 h1) with ⟨ha, hb⟩
    simp only [generate_blueprint_in_segments, h1, contStep]
    exact errGoal tr1 res1 bp0 ha hb (fun s _ => rfl)
  · rcases (run (bp0, []) 1 (by omega) base1 base2).1 st1 h1 with ⟨inv1a, inv2a⟩
    simp only [generate_blueprint_in_segments, h1, contStep]
    rcases h2 : stepSeg k 2 segOracle total bpb st1 with p2 | st2
    · rcases p2 with ⟨tr2, res2⟩
      rcases ((run st1 2 (by omega) inv1a inv2a).2 tr2 res2 h2) with ⟨ha, hb⟩
      simp only [h2, contStep]
      exact errGoal tr2 res2 st1.1 ha hb inv2a
    · rcases (run st1 2 (by omega) inv1a inv2a).1 st2 h2 with ⟨inv1b, inv2b⟩
      simp only [h2, contStep]
      rcases h3 : stepSeg k 3 segOracle total bpb st2 with p3 | st3
      · rcases p3 with ⟨tr3, res3⟩
        rcases ((run st2 3 (by omega) inv1b inv2b).2 tr3 res3 h3) with ⟨ha, hb⟩
        simp only [h3, contStep]
        exact errGoal tr3 res3 st2.1 ha hb inv2b
      · rcases (run st2 3 (by omega) inv1b inv2b).1 st3 h3 with ⟨inv1c, inv2c⟩
        simp only [h3, contStep]
        rcases h4 : stepSeg k 4 segOracle total bpb st3 with p4 | st4
        · rcases p4 with ⟨tr4, res4⟩
          rcases ((run st3 4 (by omega) inv1c inv2c).2 tr4 res4 h4) with ⟨ha, hb⟩
          simp only [h4, contStep]
          exact errGoal tr4 res4 st3.1 ha hb inv2c
        · rcases (run st3 4 (by omega) inv1c inv2c).1 st4 h4 with ⟨inv1d, inv2d⟩
          simp only [h4, contStep]
          exact seg5Run_props batchOracle total bpb k st4 bp0 inv1d inv2d

/-- Witness for `C7_resume_frame`: resuming at segment 3 with a partial
blueprint keeps its `title` field intact. -/
theorem C7_witness :
    dictLookup (resultBlueprint
      (generate_blueprint_in_segments c7SegOracle fullBatchOracle 2 2 3 c7Blueprint).2)
      "title" = dictLookup c7Blueprint "title" :=
  (C7_resume_frame c7SegOracle fullBatchOracle 2 2 3 c7Blueprint
    (fun i d _ _ hok kv hkv => by
      have hd : d = [("x", JValue.jnull)] := (Except.ok.inj hok).symm
      subst hd
      simp only [List.mem_singleton] at hkv
      subst hkv
      rfl)).2.1 "title" (by decide) rfl

/-- `sortByNum` is a permutation. -/
theorem sortByNum_perm (l : List OutlineRec) : (sortByNum l).Perm l :=
  List.perm_insertionSort _ l

/-- `sortByNum` sorts by chapter number. -/
theorem sortByNum_sorted (l : List OutlineRec) :
    List.Sorted (fun a b => a.chapter_number ≤ b.chapter_number) (sortByNum l) :=
  List.sorted_insertionSort _ l

/-- A `≤`-sorted row list with pairwise-distinct numbers is strictly
sorted. -/
theorem sorted_lt_of_nodup (l : List OutlineRec)
    (hs : List.Sorted (fun a b => a.chapter_number ≤ b.chapter_number) l)
    (hn : (l.map (·.chapter_number)).Nodup) :
    List.Sorted (fun a b => a.chapter_number < b.chapter_number) l := by
  have hne : List.Pairwise (fun a b : OutlineRec =>
      a.chapter_number ≠ b.chapter_number) l := List.pairwise_map.mp hn
  exact (hs.and hne).imp (fun h => lt_of_le_of_ne h.1 h.2)

/-- Two strictly sorted permutations of the same rows are equal. -/
theorem eq_of_perm_of_sorted_lt (l1 l2 : List OutlineRec) (hp : l1.Perm l2)
    (h1 : List.Sorted (fun a b => a.chapter_number < b.chapter_number) l1)
    (h2 : List.Sorted (fun a b => a.chapter_number < b.chapter_number) l2) :
    l1 = l2 :=
  List.eq_of_perm_of_sorted hp h1 h2

/-- Sorting an already `≤`-sorted list changes nothing. -/
theorem sortByNum_eq_of_sorted (l : List OutlineRec)
    (h : List.Sorted (fun a b => a.chapter_number ≤ b.chapter_number) l) :
    sortByNum l = l :=
  List.Sorted.insertionSort_eq h

/-- Shifting every chapter number by a constant commutes with sorting, as
long as the numbers are pairwise distinct. -/
theorem sortByNum_map_add (l : List OutlineRec) (off : Int)
    (hn : (l.map (·.chapter_number)).Nodup) :
    sortByNum (l.map (fun c => { c with chapter_number := c.chapter_number + off })) =
      (sortByNum l).map (fun c => { c with chapter_number := c.chapter_number + off }) := by
  set f : OutlineRec → OutlineRec :=
    fun c => { c with chapter_number := c.chapter_number + off } with hf
  have hmapnum : ∀ m : List OutlineRec,
      (m.map f).map (·.chapter_number) = (m.map (·.chapter_number)).map (· + off) := by
    intro m
    rw [List.map_map, List.map_map]
    rfl
  have hnl : ((l.map f).map (·.chapter_number)).Nodup := by
    rw [hmapnum]
    exact hn.map (fun a b hab => by omega)
  have hsortednums : ((sortByNum l).map (·.chapter_number)).Nodup :=
    hn.perm ((sortByNum_perm l).map (·.chapter_number)).symm
  have hlhs_strict : List.Sorted (fun a b => a.chapter_number < b.chapter_number)
      (sortByNum (l.map f)) := by
    refine sorted_lt_of_nodup _ (sortByNum_sorted _) ?_
    exact hnl.perm ((sortByNum_perm (l.map f)).map (·.chapter_number)).symm
  have hrhs_strict : List.Sorted (fun a b => a.chapter_number < b.chapter_number)
      ((sortByNum l).map f) := by
    have hstr := sorted_lt_of_nodup (sortByNum l) (sortByNum_sorted l) hsortednums
    exact List.Pairwise.map f (fun a b hab => by simp [hf]; omega) hstr
  have hperm : (sortByNum (l.map f)).Perm ((sortByNum l).map f) :=
    (sortByNum_perm (l.map f)).trans ((sortByNum_perm l).map f).symm
  exact eq_of_perm_of_sorted_lt _ _ hperm hlhs_strict hrhs_strict

/-- `popById` finds the requested id. -/
theorem popById_id (cid : Nat) :
    ∀ (l : List OutlineRec) (m : OutlineRec) (r : List OutlineRec),
      popById cid l = some (m, r) → m.id = cid := by
  intro l
  induction l with
  | nil => intro m r h; exact Option.noConfusion h
  | cons c cs ih =>
    intro m r h
    unfold popById at h
    by_cases hid : c.id = cid
    · rw [if_pos hid] at h
      cases h
      exact hid
    · rw [if_neg hid] at h
      rcases hrec : popById cid cs with _ | ⟨m', r'⟩
      · rw [hrec] at h; exact absurd h (by simp)
      · rw [hrec] at h
        simp only [Option.map] at h
        cases h
        exact ih _ _ hrec

/-- `popById` removes exactly the first row with the requested id. -/
theorem popById_ids (cid : Nat) :
    ∀ (l : List OutlineRec) (m : OutlineRec) (r : List OutlineRec),
      popById cid l = some (m, r) →
      r.map (·.id) = (l.map (·.id)).erase cid := by
  intro l
  induction l with
  | nil => intro m r h; exact Option.noConfusion h
  | cons c cs ih =>
    intro m r h
    unfold popById at h
    by_cases hid : c.id = cid
    · rw [if_pos hid] at h
      cases h
      simp [List.erase_cons, hid]
    · rw [if_neg hid] at h
      rcases hrec : popById cid cs with _ | ⟨m', r'⟩
      · rw [hrec] at h; exact absurd h (by simp)
      · rw [hrec] at h
        simp only [Option.map] at h
        cases h
        have hb : (c.id == cid) = false := by simpa using hid
        simp [List.erase_cons, hb, ih _ _ hrec]

/-- `popById` shortens the list by one. -/
theorem popById_length (cid : Nat) :
    ∀ (l : List OutlineRec) (m : OutlineRec) (r : List OutlineRec),
      popById cid l = some (m, r) → r.length + 1 = l.length := by
  intro l
  induction l with
  | nil => intro m r h; exact Option.noConfusion h
  | cons c cs ih =>
    intro m r h
    unfold popById at h
    by_cases hid : c.id = cid
    · rw [if_pos hid] at h
      cases h
      rfl
    · rw [if_neg hid] at h
      rcases hrec : popById cid cs with _ | ⟨m', r'⟩
      · rw [hrec] at h; exact absurd h (by simp)
      · rw [hrec] at h
        simp only [Option.map] at h
        cases h
        simp [← ih _ _ hrec]

/-- Every row involved in a `popById` comes from the input list. -/
theorem popById_mem (cid : Nat) :
    ∀ (l : List OutlineRec) (m : OutlineRec) (r : List OutlineRec),
      popById cid l = some (m, r) → m ∈ l ∧ ∀ x ∈ r, x ∈ l := by
  intro l
  induction l with
  | nil => intro m r h; exact Option.noConfusion h
  | cons c cs ih =>
    intro m r h
    unfold popById at h
    by_cases hid : c.id = cid
    · rw [if_pos hid] at h
      cases h
      exact ⟨List.mem_cons_self c cs, fun x hx => List.mem_cons_of_mem c hx⟩
    · rw [if_neg hid] at h
      rcases hrec : popById cid cs with _ | ⟨m', r'⟩
      · rw [hrec] at h; exact absurd h (by simp)
      · rw [hrec] at h
        simp only [Option.map] at h
        cases h
        rcases ih _ _ hrec with ⟨hm, hr⟩
        refine ⟨List.mem_cons_of_mem c hm, ?_⟩
        intro x hx
        rcases List.mem_cons.mp hx with hx | hx
        · subst hx; exact List.mem_cons_self _ _
        · exact List.mem_cons_of_mem c (hr x hx)

/-- Python `list.insert` agrees with `insertIdx` for an in-range one-based
target. -/
theorem pyInsert_eq_insertIdx (n : Nat) (x : OutlineRec) (l : List OutlineRec)
    (h1 : 1 ≤ n) (h2 : n - 1 ≤ l.length) :
    pyInsert ((n : Int) - 1) x l = List.insertIdx (n - 1) x l := by
  simp only [pyInsert]
  rw [if_neg (show ¬((n : Int) - 1 < 0) by omega)]
  rw [min_eq_left (show (n : Int) - 1 ≤ (l.length : Int) by omega)]
  congr 1
  omega

/-- `map` threads through `insertIdx`. -/
theorem map_insertIdx (f : OutlineRec → Nat) (x : OutlineRec) :
    ∀ (nn : Nat) (l : List OutlineRec),
      (List.insertIdx nn x l).map f = List.insertIdx nn (f x) (l.map f) := by
  intro nn
  induction nn with
  | zero => intro l; rfl
  | succ m ih =>
    intro l
    cases l with
    | nil => rfl
    | cons a l => simp [List.insertIdx_succ_cons, ih]

/-- The numbers assigned by `renumFrom` count up from `k`. -/
theorem renumFrom_nums (k : Int) :
    ∀ l : List OutlineRec,
      (renumFrom k l).map (·.chapter_number) =
        (List.range l.length).map (fun i : Nat => k + (i : Int)) := by
  intro l
  induction l generalizing k with
  | nil => rfl
  | cons c cs ih =>
    have h1 : (renumFrom k (c :: cs)).map (·.chapter_number) =
        k :: (renumFrom (k + 1) cs).map (·.chapter_number) := rfl
    rw [h1, ih (k + 1), List.length_cons, List.range_succ_eq_map, List.map_cons,
      List.map_map]
    congr 1
    · simp
    · apply List.map_congr_left
      intro a _
      simp only [Function.comp_apply]
      push_cast
      omega

/-- `renumFrom` keeps ids. -/
theorem renumFrom_ids (k : Int) :
    ∀ l : List OutlineRec, (renumFrom k l).map (·.id) = l.map (·.id) := by
  intro l
  induction l generalizing k with
  | nil => rfl
  | cons c cs ih => simp [renumFrom, ih (k + 1)]

/-- Rows of `renumFrom` come from the input with only the number changed. -/
theorem renumFrom_mem (k : Int) :
    ∀ (l : List OutlineRec) (x : OutlineRec), x ∈ renumFrom k l →
      ∃ y ∈ l, x.volume_id = y.volume_id := by
  intro l
  induction l generalizing k with
  | nil => intro x h; exact absurd h (by simp [renumFrom])
  | cons c cs ih =>
    intro x h
    rcases List.mem_cons.mp h with h | h
    · subst h; exact ⟨c, List.mem_cons_self c cs, rfl⟩
    · rcases ih (k + 1) x h with ⟨y, hy, hvy⟩
      exact ⟨y, List.mem_cons_of_mem c hy, hvy⟩

/-- Every number assigned by `renumFrom k` is at least `k`. -/
theorem renumFrom_num_ge (k : Int) :
    ∀ (l : List OutlineRec) (x : OutlineRec), x ∈ renumFrom k l →
      k ≤ x.chapter_number := by
  intro l
  induction l generalizing k with
  | nil => intro x h; exact absurd h (by simp [renumFrom])
  | cons c cs ih =>
    intro x h
    rcases List.mem_cons.mp h with h | h
    · subst h; simp
    · have := ih (k + 1) x h
      omega

/-- `renumFrom` produces a `≤`-sorted list. -/
theorem renumFrom_sorted (k : Int) :
    ∀ l : List OutlineRec,
      List.Sorted (fun a b => a.chapter_number ≤ b.chapter_number) (renumFrom k l) := by
  intro l
  induction l generalizing k with
  | nil => exact List.sorted_nil
  | cons c cs ih =>
    refine List.Pairwise.cons ?_ (ih (k + 1))
    intro b hb
    have := renumFrom_num_ge (k + 1) cs b hb
    simp only [renumFrom]
    omega

/-- A row map that cannot change a filter's verdict commutes with the
filter. -/
theorem filter_map_pred (l : List OutlineRec) (p : OutlineRec → Bool)
    (f : OutlineRec → OutlineRec) (hp : ∀ c, p (f c) = p c) :
    (l.map f).filter p = (l.filter p).map f := by
  induction l with
  | nil => rfl
  | cons c cs ih =>
    cases hc : p c <;>
      simp [List.filter_cons, List.map_cons, hp c, hc, ih]

/-- Rows kept by a filter excluding `q` never pass a filter `p` that
implies `q`. -/
theorem filter_filter_not (l : List OutlineRec) (p q : OutlineRec → Bool)
    (h : ∀ c, p c = true → q c = true) :
    (l.filter (fun c => !(q c))).filter p = [] := by
  induction l with
  | nil => rfl
  | cons c cs ih =>
    cases hq : q c
    · have hpc : p c = false := by
        cases hpc : p c
        · rfl
        · exact absurd (h c hpc) (by simp [hq])
      simp [List.filter_cons, hq, hpc, ih]
    · simp [List.filter_cons, hq, ih]

/-- A filter keeping every row. -/
theorem filter_all_true (l : List OutlineRec) (p : OutlineRec → Bool)
    (h : ∀ x ∈ l, p x = true) : l.filter p = l := by
  induction l with
  | nil => rfl
  | cons c cs ih =>
    rw [List.filter_cons, if_pos (h c (List.mem_cons_self c cs)),
      ih (fun x hx => h x (List.mem_cons_of_mem c hx))]

/-- A filter keeping no row. -/
theorem filter_all_false (l : List OutlineRec) (p : OutlineRec → Bool)
    (h : ∀ x ∈ l, p x = false) : l.filter p = [] := by
  induction l with
  | nil => rfl
  | cons c cs ih =>
    rw [List.filter_cons, if_neg (by simp [h c (List.mem_cons_self c cs)]),
      ih (fun x hx => h x (List.mem_cons_of_mem c hx))]

/-- `insertIdx` at an in-range index adds one element. -/
theorem length_insertIdx_le (x : OutlineRec) :
    ∀ (nn : Nat) (l : List OutlineRec), nn ≤ l.length →
      (List.insertIdx nn x l).length = l.length + 1 := by
  intro nn
  induction nn with
  | zero => intro l _; rfl
  | succ m ih =>
    intro l h
    cases l with
    | nil => exact absurd h (by simp)
    | cons a l => simp [List.insertIdx_succ_cons, ih l (by simpa using h)]

/-- Elements of an in-range `insertIdx` are the new element or old ones. -/
theorem mem_insertIdx_le (x a : OutlineRec) :
    ∀ (nn : Nat) (l : List OutlineRec), nn ≤ l.length →
      a ∈ List.insertIdx nn x l → a = x ∨ a ∈ l := by
  intro nn
  induction nn with
  | zero =>
    intro l _ h
    rw [show List.insertIdx 0 x l = x :: l from rfl] at h
    exact List.mem_cons.mp h
  | succ m ih =>
    intro l hle h
    cases l with
    | nil => exact absurd hle (by simp)
    | cons b l =>
      rw [List.insertIdx_succ_cons] at h
      rcases List.mem_cons.mp h with h | h
      · exact Or.inr (h ▸ List.mem_cons_self _ _)
      · rcases ih l (by simpa using hle) h with h | h
        · exact Or.inl h
        · exact Or.inr (List.mem_cons_of_mem b h)

/-- The numbers assigned by `renumAssignFrom` count up from `k`. -/
theorem renumAssignFrom_nums (vid : Nat) (k : Int) :
    ∀ l : List OutlineRec,
      (renumAssignFrom vid k l).map (·.chapter_number) =
        (List.range l.length).map (fun i : Nat => k + (i : Int)) := by
  intro l
  induction l generalizing k with
  | nil => rfl
  | cons c cs ih =>
    have h1 : (renumAssignFrom vid k (c :: cs)).map (·.chapter_number) =
        k :: (renumAssignFrom vid (k + 1) cs).map (·.chapter_number) := rfl
    rw [h1, ih (k + 1), List.length_cons, List.range_succ_eq_map, List.map_cons,
      List.map_map]
    congr 1
    · simp
    · apply List.map_congr_left
      intro a _
      simp only [Function.comp_apply]
      push_cast
      omega

/-- `renumAssignFrom` keeps ids. -/
theorem renumAssignFrom_ids (vid : Nat) (k : Int) :
    ∀ l : List OutlineRec, (renumAssignFrom vid k l).map (·.id) = l.map (·.id) := by
  intro l
  induction l generalizing k with
  | nil => rfl
  | cons c cs ih => simp [renumAssignFrom, ih (k + 1)]

/-- `renumAssignFrom` pins every row's volume. -/
theorem renumAssignFrom_vid (vid : Nat) (k : Int) :
    ∀ (l : List OutlineRec) (x : OutlineRec), x ∈ renumAssignFrom vid k l →
      x.volume_id = vid := by
  intro l
  induction l generalizing k with
  | nil => intro x h; exact absurd h (by simp [renumAssignFrom])
  | cons c cs ih =>
    intro x h
    rcases List.mem_cons.mp h with h | h
    · subst h; rfl
    · exact ih (k + 1) x h

/-- Every number assigned by `renumAssignFrom vid k` is at least `k`. -/
theorem renumAssignFrom_num_ge (vid : Nat) (k : Int) :
    ∀ (l : List OutlineRec) (x : OutlineRec), x ∈ renumAssignFrom vid k l →
      k ≤ x.chapter_number := by
  intro l
  induction l generalizing k with
  | nil => intro x h; exact absurd h (by simp [renumAssignFrom])
  | cons c cs ih =>
    intro x h
    rcases List.mem_cons.mp h with h | h
    · subst h; simp
    · have := ih (k + 1) x h
      omega

/-- `renumAssignFrom` produces a `≤`-sorted list. -/
theorem renumAssignFrom_sorted (vid : Nat) (k : Int) :
    ∀ l : List OutlineRec,
      List.Sorted (fun a b => a.chapter_number ≤ b.chapter_number)
        (renumAssignFrom vid k l) := by
  intro l
  induction l generalizing k with
  | nil => exact List.sorted_nil
  | cons c cs ih =>
    refine List.Pairwise.cons ?_ (ih (k + 1))
    intro b hb
    have := renumAssignFrom_num_ge vid (k + 1) cs b hb
    simp only [renumAssignFrom]
    omega

/-- Sorting keeps the length. -/
theorem sortByNum_length (l : List OutlineRec) : (sortByNum l).length = l.length :=
  (sortByNum_perm l).length_eq

/-- The dense numbering `1..n` has no duplicates. -/
theorem intRange1_nodup (nn : Nat) : (intRange1 nn).Nodup := by
  unfold intRange1
  refine List.Nodup.map ?_ ?_
  · intro a b hab
    have hab' : (a : Int) + 1 = (b : Int) + 1 := hab
    omega
  · apply List.nodup_range

/-- Under the dense-numbering invariant, a volume's chapter numbers are
pairwise distinct. -/
theorem nodup_nums_of_dense (st : NovelState) (v : Nat)
    (h : numsOf st v = intRange1 (chaptersOf st v).length) :
    ((chaptersOf st v).map (·.chapter_number)).Nodup := by
  have h1 : ((sortByNum (chaptersOf st v)).map (·.chapter_number)).Nodup := by
    rw [show (sortByNum (chaptersOf st v)).map (·.chapter_number) = numsOf st v from rfl, h]
    exact intRange1_nodup _
  exact (((sortByNum_perm (chaptersOf st v)).map (·.chapter_number)).nodup_iff).mp h1

/-- Every row of the sorted-and-offset slice of a volume carries that
volume's id. -/
theorem mem_bump_volume (st : NovelState) (v : Nat) (x : OutlineRec)
    (hx : x ∈ (sortByNum (chaptersOf st v)).map
      (fun c => { c with chapter_number := c.chapter_number + moveOffset })) :
    x.volume_id = v := by
  rcases List.mem_map.mp hx with ⟨y, hy, rfl⟩
  have hy2 : y ∈ chaptersOf st v := (sortByNum_perm _).mem_iff.mp hy
  unfold chaptersOf at hy2
  have hm := (List.mem_filter.mp hy2).2
  show y.volume_id = v
  simpa using hm

/-- C8: a successful, non-trivial `move_chapter_to_volume` with an
in-range one-based target position `n` leaves every touched volume densely
numbered `1..N`, and the volume's id sequence is the previous relative
order with the moved chapter spliced in at zero-based index `n - 1`: for a
same-volume move the target keeps its size and the id is re-inserted after
being removed; for a cross-volume move the target grows by one and the
source shrinks by one, keeping its order with the id removed. -/
theorem C8_dense_renumbering (st : NovelState) (cid tvid n : Nat)
    (st' : NovelState) (outline : OutlineRec)
    (hfind : st.chapters.find? (fun c => c.id == cid) = some outline)
    (hn1 : 1 ≤ n)
    (hdT : numsOf st tvid = intRange1 (chaptersOf st tvid).length)
    (hdS : numsOf st outline.volume_id =
      intRange1 (chaptersOf st outline.volume_id).length)
    (hnot : ¬(outline.volume_id = tvid ∧ outline.chapter_number = (n : Int)))
    (hrange : if outline.volume_id = tvid then n ≤ (chaptersOf st tvid).length
      else n ≤ (chaptersOf st tvid).length + 1)
    (hok : move_chapter_to_volume st cid tvid (n : Int) = .ok st') :
    (outline.volume_id = tvid →
      numsOf st' tvid = intRange1 (chaptersOf st tvid).length ∧
      idsOf st' tvid = List.insertIdx (n - 1) cid ((idsOf st tvid).erase cid)) ∧
    (outline.volume_id ≠ tvid →
      numsOf st' tvid = intRange1 ((chaptersOf st tvid).length + 1) ∧
      idsOf st' tvid = List.insertIdx (n - 1) cid (idsOf st tvid) ∧
      numsOf st' outline.volume_id =
        intRange1 ((chaptersOf st outline.volume_id).length - 1) ∧
      idsOf st' outline.volume_id = (idsOf st outline.volume_id).erase cid) := by
  rcases hv : st.volumes.find? (fun v => v.id == tvid) with _ | tv
  · simp only [move_chapter_to_volume, hfind, hv] at hok
    exact Except.noConfusion hok
  · by_cases hproj : outline.project_id ≠ tv.project_id
    · simp only [move_chapter_to_volume, hfind, hv, if_pos hproj] at hok
      exact Except.noConfusion hok
    · by_cases hsame : outline.volume_id = tvid
      · -- same-volume move
        have hnodupT : ((chaptersOf st tvid).map (·.chapter_number)).Nodup :=
          nodup_nums_of_dense st tvid hdT
        have hall : sortByNum ((st.chapters.map (fun c =>
            if c.volume_id == tvid then
              { c with chapter_number := c.chapter_number + moveOffset }
            else c)).filter (fun c => c.volume_id == tvid)) =
            (sortByNum (chaptersOf st tvid)).map
              (fun c => { c with chapter_number := c.chapter_number + moveOffset }) := by
          rw [filter_map_pred _ _ _ (fun c => by
            by_cases hb : c.volume_id == tvid <;> simp [hb])]
          have h2 : (st.chapters.filter (fun c => c.volume_id == tvid)).map (fun c =>
              if c.volume_id == tvid then
                { c with chapter_number := c.chapter_number + moveOffset }
              else c) =
              (chaptersOf st tvid).map
                (fun c => { c with chapter_number := c.chapter_number + moveOffset }) := by
            apply List.map_congr_left
            intro a ha
            rw [if_pos (List.mem_filter.mp ha).2]
          rw [h2]
          exact sortByNum_map_add _ _ hnodupT
        simp only [move_chapter_to_volume, hfind, hv, if_neg hproj, if_neg hnot,
          if_pos hsame] at hok
        rw [hall] at hok
        rcases hpop : popById cid ((sortByNum (chaptersOf st tvid)).map
            (fun c => { c with chapter_number := c.chapter_number + moveOffset }))
          with _ | ⟨moving, rest⟩
        · rw [hpop] at hok
          exact Except.noConfusion hok
        · rw [hpop] at hok
          have hchap : st'.chapters =
              ((st.chapters.map (fun c =>
                if c.volume_id == tvid then
                  { c with chapter_number := c.chapter_number + moveOffset }
                else c)).filter (fun c => !(c.volume_id == tvid))) ++
              renumFrom 1 (pyInsert ((n : Int) - 1) moving rest) := by
            have h := Except.ok.inj hok
            rw [← h]
          have hLen : rest.length + 1 = (chaptersOf st tvid).length := by
            have h := popById_length cid _ _ _ hpop
            rw [List.length_map, sortByNum_length] at h
            omega
          rw [if_pos hsame] at hrange
          have hn2 : n - 1 ≤ rest.length := by omega
          have hinsert : pyInsert ((n : Int) - 1) moving rest =
              List.insertIdx (n - 1) moving rest :=
            pyInsert_eq_insertIdx n moving rest hn1 hn2
          have hallids : ((sortByNum (chaptersOf st tvid)).map
              (fun c => { c with chapter_number := c.chapter_number + moveOffset })).map
                (·.id) = idsOf st tvid := by
            rw [List.map_map]
            rfl
          have hrestids : rest.map (·.id) = (idsOf st tvid).erase cid := by
            rw [popById_ids cid _ _ _ hpop, hallids]
          have hmovid : moving.id = cid := popById_id cid _ _ _ hpop
          have hvolx : ∀ x ∈ renumFrom 1 (pyInsert ((n : Int) - 1) moving rest),
              (x.volume_id == tvid) = true := by
            intro x hx
            rcases renumFrom_mem 1 _ x hx with ⟨y, hy, hvy⟩
            rw [hinsert] at hy
            have hyall : y ∈ (sortByNum (chaptersOf st tvid)).map
                (fun c => { c with chapter_number := c.chapter_number + moveOffset }) := by
              rcases mem_insertIdx_le moving y (n - 1) rest hn2 hy with h | h
              · exact h ▸ (popById_mem cid _ _ _ hpop).1
              · exact (popById_mem cid _ _ _ hpop).2 y h
            rw [hvy, mem_bump_volume st tvid y hyall]
            simp
          have hch : chaptersOf st' tvid =
              renumFrom 1 (pyInsert ((n : Int) - 1) moving rest) := by
            unfold chaptersOf
            rw [hchap, List.filter_append,
              filter_filter_not _ _ _ (fun c h => h),
              filter_all_true _ _ hvolx, List.nil_append]
          have hsortch : sortByNum (chaptersOf st' tvid) =
              renumFrom 1 (pyInsert ((n : Int) - 1) moving rest) := by
            rw [hch]
            exact sortByNum_eq_of_sorted _ (renumFrom_sorted 1 _)
          refine ⟨fun _ => ⟨?_, ?_⟩, fun hne => absurd hsame hne⟩
          · show (sortByNum (chaptersOf st' tvid)).map (·.chapter_number) = _
            rw [hsortch, renumFrom_nums]
            have hlen2 : (pyInsert ((n : Int) - 1) moving rest).length =
                (chaptersOf st tvid).length := by
              rw [hinsert, length_insertIdx_le moving (n - 1) rest hn2]
              omega
            rw [hlen2]
            unfold intRange1
            apply List.map_congr_left
            intro a _
            show (1 : Int) + (a : Int) = (a : Int) + 1
            omega
          · show (sortByNum (chaptersOf st' tvid)).map (·.id) = _
            rw [hsortch, renumFrom_ids, hinsert, map_insertIdx, hmovid, hrestids]
      · -- cross-volume move
        have hneq : outline.volume_id ≠ tvid := hsame
        have hnodupT : ((chaptersOf st tvid).map (·.chapter_number)).Nodup :=
          nodup_nums_of_dense st tvid hdT
        have hnodupS : ((chaptersOf st outline.volume_id).map (·.chapter_number)).Nodup :=
          nodup_nums_of_dense st outline.volume_id hdS
        have hfm : ∀ v : Nat,
            ((chaptersOf st v).map (·.chapter_number)).Nodup →
            (∀ c : OutlineRec, (c.volume_id == v) = true →
              (c.volume_id == outline.volume_id || c.volume_id == tvid) = true) →
            sortByNum ((st.chapters.map (fun c =>
              if c.volume_id == outline.volume_id || c.volume_id == tvid then
                { c with chapter_number := c.chapter_number + moveOffset }
              else c)).filter (fun c => c.volume_id == v)) =
            (sortByNum (chaptersOf st v)).map
              (fun c => { c with chapter_number := c.chapter_number + moveOffset }) := by
          intro v hnd himp
          rw [filter_map_pred _ _ _ (fun c => by
            by_cases hb : c.volume_id == outline.volume_id || c.volume_id == tvid <;>
              simp [hb])]
          have h2 : (st.chapters.filter (fun c => c.volume_id == v)).map (fun c =>
              if c.volume_id == outline.volume_id || c.volume_id == tvid then
                { c with chapter_number := c.chapter_number + moveOffset }
              else c) =
              (chaptersOf st v).map
                (fun c => { c with chapter_number := c.chapter_number + moveOffset }) := by
            apply List.map_congr_left
            intro a ha
            rw [if_pos (himp a (List.mem_filter.mp ha).2)]
          rw [h2]
          exact sortByNum_map_add _ _ hnd
        have hallS := hfm outline.volume_id hnodupS (fun c h => by simp [h])
        have hallT := hfm tvid hnodupT (fun c h => by simp [h])
        simp only [move_chapter_to_volume, hfind, hv, if_neg hproj, if_neg hnot,
          if_neg hsame] at hok
        rw [hallS, hallT] at hok
        rcases hpop : popById cid ((sortByNum (chaptersOf st outline.volume_id)).map
            (fun c => { c with chapter_number := c.chapter_number + moveOffset }))
          with _ | ⟨moving, oldRest⟩
        · rw [hpop] at hok
          exact Except.noConfusion hok
        · rw [hpop] at hok
          have hchap : st'.chapters =
              ((st.chapters.map (fun c =>
                if c.volume_id == outline.volume_id || c.volume_id == tvid then
                  { c with chapter_number := c.chapter_number + moveOffset }
                else c)).filter (fun c =>
                  !(c.volume_id == outline.volume_id || c.volume_id == tvid))) ++
              renumFrom 1 oldRest ++
              renumAssignFrom tvid 1 (pyInsert ((n : Int) - 1) moving
                ((sortByNum (chaptersOf st tvid)).map
                  (fun c => { c with chapter_number := c.chapter_number + moveOffset }))) := by
            have h := Except.ok.inj hok
            rw [← h]
          rw [if_neg hsame] at hrange
          have hLenS : oldRest.length + 1 = (chaptersOf st outline.volume_id).length := by
            have h := popById_length cid _ _ _ hpop
            rw [List.length_map, sortByNum_length] at h
            omega
          have hn2 : n - 1 ≤ ((sortByNum (chaptersOf st tvid)).map
              (fun c => { c with chapter_number := c.chapter_number + moveOffset })).length := by
            rw [List.length_map, sortByNum_length]
            omega
          have hinsert : pyInsert ((n : Int) - 1) moving
              ((sortByNum (chaptersOf st tvid)).map
                (fun c => { c with chapter_number := c.chapter_number + moveOffset })) =
              List.insertIdx (n - 1) moving
                ((sortByNum (chaptersOf st tvid)).map
                  (fun c => { c with chapter_number := c.chapter_number + moveOffset })) :=
            pyInsert_eq_insertIdx n moving _ hn1 hn2
          have htids : ((sortByNum (chaptersOf st tvid)).map
              (fun c => { c with chapter_number := c.chapter_number + moveOffset })).map
                (·.id) = idsOf st tvid := by
            rw [List.map_map]
            rfl
          have hsids : ((sortByNum (chaptersOf st outline.volume_id)).map
              (fun c => { c with chapter_number := c.chapter_number + moveOffset })).map
                (·.id) = idsOf st outline.volume_id := by
            rw [List.map_map]
            rfl
          have holdids : oldRest.map (·.id) = (idsOf st outline.volume_id).erase cid := by
            rw [popById_ids cid _ _ _ hpop, hsids]
          have hmovid : moving.id = cid := popById_id cid _ _ _ hpop
          have hvolS : ∀ x ∈ renumFrom 1 oldRest,
              x.volume_id = outline.volume_id := by
            intro x hx
            rcases renumFrom_mem 1 _ x hx with ⟨y, hy, hvy⟩
            rw [hvy, mem_bump_volume st outline.volume_id y
              ((popById_mem cid _ _ _ hpop).2 y hy)]
          have hchT : chaptersOf st' tvid =
              renumAssignFrom tvid 1 (pyInsert ((n : Int) - 1) moving
                ((sortByNum (chaptersOf st tvid)).map
                  (fun c => { c with chapter_number := c.chapter_number + moveOffset }))) := by
            unfold chaptersOf
            rw [hchap, List.filter_append, List.filter_append,
              filter_filter_not _ _ _ (fun c h => by simp [h]),
              filter_all_false _ _ (fun x hx => by
                rw [hvolS x hx]
                exact beq_eq_false_iff_ne.mpr hneq),
              filter_all_true _ _ (fun x hx => by
                rw [renumAssignFrom_vid tvid 1 _ x hx]
                simp),
              List.nil_append, List.nil_append]
            rfl
          have hchS : chaptersOf st' outline.volume_id = renumFrom 1 oldRest := by
            unfold chaptersOf
            rw [hchap, List.filter_append, List.filter_append,
              filter_filter_not _ _ _ (fun c h => by simp [h]),
              filter_all_true _ _ (fun x hx => by
                rw [hvolS x hx]
                simp),
              filter_all_false _ _ (fun x hx => by
                rw [renumAssignFrom_vid tvid 1 _ x hx]
                exact beq_eq_false_iff_ne.mpr (Ne.symm hneq)),
              List.nil_append, List.append_nil]
          have hsortT : sortByNum (chaptersOf st' tvid) =
              renumAssignFrom tvid 1 (pyInsert ((n : Int) - 1) moving
                ((sortByNum (chaptersOf st tvid)).map
                  (fun c => { c with chapter_number := c.chapter_number + moveOffset }))) := by
            rw [hchT]
            exact sortByNum_eq_of_sorted _ (renumAssignFrom_sorted tvid 1 _)
          have hsortS : sortByNum (chaptersOf st' outline.volume_id) =
              renumFrom 1 oldRest := by
            rw [hchS]
            exact sortByNum_eq_of_sorted _ (renumFrom_sorted 1 _)
          refine ⟨fun heq => absurd heq hsame, fun _ => ⟨?_, ?_, ?_, ?_⟩⟩
          · show (sortByNum (chaptersOf st' tvid)).map (·.chapter_number) = _
            rw [hsortT, renumAssignFrom_nums]
            have hlen2 : (pyInsert ((n : Int) - 1) moving
                ((sortByNum (chaptersOf st tvid)).map
                  (fun c => { c with chapter_number := c.chapter_number + moveOffset }))).length =
                (chaptersOf st tvid).length + 1 := by
              rw [hinsert, length_insertIdx_le moving (n - 1) _ hn2,
                List.length_map, sortByNum_length]
            rw [hlen2]
            unfold intRange1
            apply List.map_congr_left
            intro a _
            show (1 : Int) + (a : Int) = (a : Int) + 1
            omega
          · show (sortByNum (chaptersOf st' tvid)).map (·.id) = _
            rw [hsortT, renumAssignFrom_ids, hinsert, map_insertIdx, hmovid, htids]
          · show (sortByNum (chaptersOf st' outline.volume_id)).map (·.chapter_number) = _
            rw [hsortS, renumFrom_nums]
            have hlen3 : oldRest.length = (chaptersOf st outline.volume_id).length - 1 := by
              omega
            rw [hlen3]
            unfold intRange1
            apply List.map_congr_left
            intro a _
            show (1 : Int) + (a : Int) = (a : Int) + 1
            omega
          · show (sortByNum (chaptersOf st' outline.volume_id)).map (·.id) = _
            rw [hsortS, renumFrom_ids, holdids]

/-- Witness for `C8_dense_renumbering`: moving chapter 11 of `mvState`
from volume 1 to volume 2 at position 2 renumbers both volumes densely and
splices id 11 into volume 2's id sequence at index 1. -/
theorem C8_dense_renumbering_witness :
    numsOf c8Moved 2 = intRange1 ((chaptersOf mvState 2).length + 1) ∧
    idsOf c8Moved 2 = List.insertIdx 1 11 (idsOf mvState 2) ∧
    numsOf c8Moved 1 = intRange1 ((chaptersOf mvState 1).length - 1) ∧
    idsOf c8Moved 1 = (idsOf mvState 1).erase 11 :=
  (C8_dense_renumbering mvState 11 2 2 c8Moved ⟨11, 7, 1, 1⟩ (by decide) (by decide)
    (by decide) (by decide) (by decide) (by decide) rfl).2 (by decide)

/-- Inside a string body made of good characters, the sanitizer escapes
exactly the literal newline/CR/tab characters and recognises the closing
quote (next significant character `}`) as the terminator. -/
theorem sanSuffix (content : List Char) (h : ∀ c ∈ content, goodStrChar c) :
    sanAux (content ++ ['"', '\x7d']) true false =
      escContent content ++ ['"', '\x7d'] := by
  induction content with
  | nil => rfl
  | cons c cs ih =>
    obtain ⟨hq, hbs, -⟩ := h c (List.mem_cons_self c cs)
    have ih' := ih (fun x hx => h x (List.mem_cons_of_mem c hx))
    show sanAux (c :: (cs ++ ['"', '\x7d'])) true false = _
    by_cases hn : c = '\n'
    · subst hn
      simp [sanAux, ih', escContent, escChar]
    · by_cases hr2 : c = '\r'
      · subst hr2
        simp [sanAux, ih', escContent, escChar]
      · by_cases ht : c = '\t'
        · subst ht
          simp [sanAux, ih', escContent, escChar]
        · simp [sanAux, hq, hbs, hn, hr2, ht, ih', escContent, escChar]

/-- The sanitizer on the one-field document: the structural prefix is kept
(the key's closing quote sees `:`, the value's closing quote sees `}`) and
the string body is escaped characterwise. -/
theorem sanDoc (content : List Char) (h : ∀ c ∈ content, goodStrChar c) :
    (sanitize_json_like_text (mkStrDoc content)).data =
      '\x7b' :: '"' :: 'k' :: '"' :: ':' :: ' ' :: '"' ::
        (escContent content ++ ['"', '\x7d']) := by
  have hne : mkStrDoc content ≠ "" := by
    intro hcon
    exact List.noConfusion (congrArg String.data hcon)
  unfold sanitize_json_like_text
  rw [if_neg hne]
  show '\x7b' :: '"' :: 'k' :: '"' :: ':' :: ' ' :: '"' ::
      sanAux (content ++ ['"', '\x7d']) true false = _
  rw [sanSuffix content h]

/-- One scanner step: a closing quote returns the accumulated content. -/
theorem scanStepQ (b p : Nat) (l acc : List Char) :
    scanStringAux b ('"' :: l) p acc = .ok (acc.reverse, l, p + 1) := by
  rw [scanStringAux.eq_def]
  rfl

theorem scanStepN (b p : Nat) (l acc : List Char) :
    scanStringAux b ('\\' :: 'n' :: l) p acc = scanStringAux b l (p + 2) ('\n' :: acc) := by
  rw [scanStringAux.eq_def]
  rfl

theorem scanStepR (b p : Nat) (l acc : List Char) :
    scanStringAux b ('\\' :: 'r' :: l) p acc = scanStringAux b l (p + 2) ('\r' :: acc) := by
  rw [scanStringAux.eq_def]
  rfl

theorem scanStepT (b p : Nat) (l acc : List Char) :
    scanStringAux b ('\\' :: 't' :: l) p acc = scanStringAux b l (p + 2) ('\t' :: acc) := by
  rw [scanStringAux.eq_def]
  rfl

theorem scanStepGen (b p : Nat) (l acc : List Char) (c : Char) (h1 : ¬(c = '"'))
    (h2 : ¬(c = '\\')) (h3 : ¬(c.toNat < 0x20)) :
    scanStringAux b (c :: l) p acc = scanStringAux b l (p + 1) (c :: acc) := by
  rw [scanStringAux.eq_def]
  show (if c = '"' then Except.ok (acc.reverse, l, p + 1)
    else
      if c = '\\' then
        match l with
        | [] => Except.error ("Unterminated string starting at", b)
        | e :: cs' =>
          if e = 'u' then
            match cs' with
            | h1 :: h2 :: h3 :: h4 :: cs'' =>
              match hexVal h1, hexVal h2, hexVal h3, hexVal h4 with
              | some a, some b2, some c2, some d =>
                scanStringAux b cs'' (p + 6)
                  (Char.ofNat (((a * 16 + b2) * 16 + c2) * 16 + d) :: acc)
              | _, _, _, _ => Except.error ("Invalid \\uXXXX escape", p + 1)
            | _ => Except.error ("Invalid \\uXXXX escape", p + 1)
          else
            match jsonEscapeTable e with
            | some r => scanStringAux b cs' (p + 2) (r :: acc)
            | none => Except.error ("Invalid \\escape", p)
      else
        if c.toNat < 0x20 then Except.error ("Invalid control character at", p)
        else scanStringAux b l (p + 1) (c :: acc)) = scanStringAux b l (p + 1) (c :: acc)
  rw [if_neg h1, if_neg h2, if_neg h3]

theorem jscanValStrStep (g p : Nat) (cs : List Char) :
    ∀ r, scanStringAux p cs (p + 1) [] = r →
      jscan (g + 1) (.value ('"' :: cs) p) =
        (match r with
         | .ok (content, rest', p') => .ok (.jstr ⟨content⟩, rest', p')
         | .error e => .error e) := by
  intro r hr
  rw [← hr]
  with_unfolding_all rfl

theorem jscanObjBodyStep (g p : Nat) (cs : List Char) (acc : JDict) :
    ∀ r, scanStringAux p cs (p + 1) [] = r →
      jscan (g + 1) (.objBody ('"' :: cs) p acc) =
        (match r with
         | .error e => .error e
         | .ok (key, rest1, p1) => jscan g (.objAfterKey ⟨key⟩ rest1 p1 acc)) := by
  intro r hr
  rw [← hr]
  with_unfolding_all rfl

theorem jscanAfterKeyStep (g : Nat) (X : List Char) :
    ∀ r, jscan g (.value ('"' :: X) 6) = r →
      jscan (g + 1) (.objAfterKey "k" (':' :: ' ' :: '"' :: X) 4 []) =
        (match r with
         | .error e => .error e
         | .ok (v, rest2, p3) =>
           match skipWs rest2 p3 with
           | (cs3, p4) =>
             match cs3 with
             | '\x7d' :: rest3 => .ok (.jobj (dictSet [] "k" v), rest3, p4 + 1)
             | ',' :: rest3 =>
               (match skipWs rest3 (p4 + 1) with
                | (cs4, p5) =>
                  match cs4 with
                  | '"' :: _ => jscan g (.objBody cs4 p5 (dictSet [] "k" v))
                  | _ => .error ("Expecting property name enclosed in double quotes", p5))
             | _ => .error ("Expecting ',' delimiter", p4)) := by
  intro r hr
  rw [← hr]
  with_unfolding_all rfl

theorem scanKey (l : List Char) : scanStringAux 1 ('k' :: '"' :: l) 2 [] = .ok (['k'], l, 4) := by
  rw [scanStepGen 1 2 ('"' :: l) [] 'k' (by decide) (by decide) (by decide), scanStepQ]
  rfl

theorem jscanStepKey (g : Nat) (X : List Char) :
    jscan (g + 1 + 1) (.objBody ('"' :: 'k' :: '"' :: X) 1 []) =
    jscan (g + 1) (.objAfterKey "k" X 4 []) := by
  rw [jscanObjBodyStep (g + 1) 1 ('k' :: '"' :: X) [] _ (scanKey X)]

theorem scanEsc (content : List Char) (h : ∀ c ∈ content, goodStrChar c) :
    ∀ (b p : Nat) (acc rest : List Char),
      scanStringAux b (escContent content ++ ('"' :: rest)) p acc =
        .ok (acc.reverse ++ content, rest, p + (escContent content).length + 1) := by
  induction content with
  | nil =>
    intro b p acc rest
    rw [show escContent [] ++ ('"' :: rest) = '"' :: rest from rfl, scanStepQ]
    simp [escContent]
  | cons c cs ih =>
    intro b p acc rest
    obtain ⟨hq, hbs, hpr⟩ := h c (List.mem_cons_self c cs)
    have ih' := ih (fun x hx => h x (List.mem_cons_of_mem c hx))
    by_cases hn : c = '\n'
    · subst hn
      rw [show escContent ('\n' :: cs) ++ ('"' :: rest) =
        '\\' :: 'n' :: (escContent cs ++ ('"' :: rest)) from rfl, scanStepN,
        ih' b (p + 2) ('\n' :: acc) rest]
      simp [escContent, escChar]
      omega
    · by_cases hr : c = '\r'
      · subst hr
        rw [show escContent ('\r' :: cs) ++ ('"' :: rest) =
          '\\' :: 'r' :: (escContent cs ++ ('"' :: rest)) from rfl, scanStepR,
          ih' b (p + 2) ('\r' :: acc) rest]
        simp [escContent, escChar]
        omega
      · by_cases ht : c = '\t'
        · subst ht
          rw [show escContent ('\t' :: cs) ++ ('"' :: rest) =
            '\\' :: 't' :: (escContent cs ++ ('"' :: rest)) from rfl, scanStepT,
            ih' b (p + 2) ('\t' :: acc) rest]
          simp [escContent, escChar]
          omega
        · have hge : 0x20 ≤ c.toNat := by
            rcases hpr with hge | hc | hc | hc
            · exact hge
            · exact absurd hc hn
            · exact absurd hc hr
            · exact absurd hc ht
          have he : escContent (c :: cs) ++ ('"' :: rest) =
              c :: (escContent cs ++ ('"' :: rest)) := by
            simp [escContent, escChar, hn, hr, ht]
          rw [he, scanStepGen b p (escContent cs ++ ('"' :: rest)) acc c hq hbs (by omega),
            ih' b (p + 1) (c :: acc) rest]
          simp [escContent, escChar, hn, hr, ht]
          omega

theorem jscanFull (content : List Char) (h : ∀ c ∈ content, goodStrChar c) (g : Nat) :
    ∃ p : Nat, jscan (g + 1 + 1 + 1 + 1)
      (.value ('\x7b' :: '"' :: 'k' :: '"' :: ':' :: ' ' :: '"' ::
        (escContent content ++ ['"', '\x7d'])) 0) =
      .ok (.jobj [("k", .jstr ⟨content⟩)], [], p) := by
  have s1 : jscan (g + 1 + 1 + 1 + 1)
      (.value ('\x7b' :: '"' :: 'k' :: '"' :: ':' :: ' ' :: '"' ::
        (escContent content ++ ['"', '\x7d'])) 0) =
      jscan (g + 1 + 1 + 1) (.objBody ('"' :: 'k' :: '"' :: ':' :: ' ' :: '"' ::
        (escContent content ++ ['"', '\x7d'])) 1 []) := by
    with_unfolding_all rfl
  have hscan := scanEsc content h 6 (6 + 1) [] ['\x7d']
  have hv := jscanValStrStep g 6 (escContent content ++ ['"', '\x7d']) _ hscan
  have hv' : jscan (g + 1) (.value ('"' :: (escContent content ++ ['"', '\x7d'])) 6) =
      .ok (.jstr ⟨content⟩, ['\x7d'], 6 + 1 + (escContent content).length + 1) := by
    rw [hv]
    rfl
  have hak := jscanAfterKeyStep (g + 1) (escContent content ++ ['"', '\x7d']) _ hv'
  refine ⟨6 + 1 + (escContent content).length + 1 + 1, ?_⟩
  rw [s1, jscanStepKey (g + 1) (':' :: ' ' :: '"' :: (escContent content ++ ['"', '\x7d'])), hak]
  with_unfolding_all rfl

theorem jloadsListDoc (content : List Char) (h : ∀ c ∈ content, goodStrChar c) :
    jloadsList ('\x7b' :: '"' :: 'k' :: '"' :: ':' :: ' ' :: '"' ::
      (escContent content ++ ['"', '\x7d'])) = .ok (.jobj [("k", .jstr ⟨content⟩)]) := by
  rcases jscanFull content h
      (2 * ('\x7b' :: '"' :: 'k' :: '"' :: ':' :: ' ' :: '"' ::
        (escContent content ++ ['"', '\x7d'])).length + 2 - 4) with ⟨p, hp⟩
  have hX : ('\x7b' :: '"' :: 'k' :: '"' :: ':' :: ' ' :: '"' ::
      (escContent content ++ ['"', '\x7d'])).length = (escContent content).length + 9 := by
    simp [List.length_append]
  have hfuel : 2 * ('\x7b' :: '"' :: 'k' :: '"' :: ':' :: ' ' :: '"' ::
      (escContent content ++ ['"', '\x7d'])).length + 2 =
      2 * ('\x7b' :: '"' :: 'k' :: '"' :: ':' :: ' ' :: '"' ::
        (escContent content ++ ['"', '\x7d'])).length + 2 - 4 + 1 + 1 + 1 + 1 := by
    rw [hX]
    omega
  have hbridge : jloadsList ('\x7b' :: '"' :: 'k' :: '"' :: ':' :: ' ' :: '"' ::
      (escContent content ++ ['"', '\x7d'])) =
      (match jscan (2 * ('\x7b' :: '"' :: 'k' :: '"' :: ':' :: ' ' :: '"' ::
          (escContent content ++ ['"', '\x7d'])).length + 2)
        (.value ('\x7b' :: '"' :: 'k' :: '"' :: ':' :: ' ' :: '"' ::
          (escContent content ++ ['"', '\x7d'])) 0) with
      | .error e => .error e
      | .ok (v, rest, p2) =>
        match skipWs rest p2 with
        | (rest1, p3) => if rest1.isEmpty then Except.ok v
            else Except.error ("Extra data", p3)) := by
    with_unfolding_all rfl
  rw [hbridge, hfuel, hp]
  rfl

/-- C6: the sanitizer escapes literal newline/CR/tab inside string literals
and disambiguates in-string quotes by the peek-past-whitespace rule, so that
for the one-field document whose string value holds any such raw content,
sanitize-then-parse recovers the original logical string content; moreover
a quote whose next significant character is not structural is escaped as
content (`qDoc`), the escaped document parses back to the intended text, and
a quote at end of input terminates the string. -/
theorem C6_sanitize_roundtrip (content : List Char)
    (h : ∀ c ∈ content, goodStrChar c) :
    jloads (sanitize_json_like_text (mkStrDoc content)) =
      .ok (.jobj [("k", .jstr ⟨content⟩)]) ∧
    sanitize_json_like_text qDoc = qDocEsc ∧
    jloads qDocEsc = .ok (.jobj [("m", .jstr "he said \"hi\" loudly")]) ∧
    sanitize_json_like_text "\"a\"" = "\"a\"" := by
  refine ⟨?_, by rfl, by rfl, by rfl⟩
  have hdoc := sanDoc content h
  show jloadsList (sanitize_json_like_text (mkStrDoc content)).data = _
  rw [hdoc]
  exact jloadsListDoc content h

/-- Witness for `C6_sanitize_roundtrip`: the content `a⏎⇥b` (with a literal
newline and tab) is recovered intact by sanitize-then-parse. -/
theorem C6_witness :
    (∀ c ∈ ('a' :: '\n' :: '\t' :: 'b' :: []), goodStrChar c) ∧
    jloads (sanitize_json_like_text (mkStrDoc ('a' :: '\n' :: '\t' :: 'b' :: []))) =
      .ok (.jobj [("k", .jstr ⟨'a' :: '\n' :: '\t' :: 'b' :: []⟩)]) :=
  ⟨by decide, (C6_sanitize_roundtrip ('a' :: '\n' :: '\t' :: 'b' :: []) (by decide)).1⟩
